import Mathlib

/-!
# Verification of the `uncozip` streaming ZIP decoder

A shallow embedding of the Go sources of `uncozip` (`main.go`, the PKWARE
decrypter file) in Lean 4, together with theorems settling the frozen claims
about the specification.

Conventions of the embedding:

* a byte stream is a `List Nat` of byte values (each element is the value the
  Go code reads; arithmetic is on `Nat` with explicit `% 2 ^ w` where the Go
  code wraps on a machine width);
* `io.Reader` plumbing becomes explicit state passing: a read of `k` bytes from
  a list takes `min` of `k`, the declared limits, and the available bytes, and
  the structured-read helpers (`binary.Read`, `io.ReadFull`) fail when fewer
  than `k` bytes come back, exactly as the Go helpers do;
* fallible code returns `Option`/`Except`.
-/

namespace Uncozip

/-- Little-endian value of a byte list (`encoding/binary`, little endian). -/
def leNat (bs : List Nat) : Nat := bs.foldr (fun b acc => b + 256 * acc) 0

/-- `sigSize` from main.go. -/
def sigSize : Nat := 4

/-- `dataDescriptorSize = 4 * 3` from main.go. -/
def dataDescriptorSize : Nat := 12

/-- `sigLocalFileHeader = {'P','K',3,4}`. -/
def sigLocalFileHeader : List Nat := [80, 75, 3, 4]

/-- `sigCentralDirectoryHeader = {'P','K',1,2}`. -/
def sigCentralDirectoryHeader : List Nat := [80, 75, 1, 2]

/-- `sigDataDescriptor = {'P','K',7,8}`. -/
def sigDataDescriptor : List Nat := [80, 75, 7, 8]

/-- `_DataDescriptor` from main.go: CRC32, CompressedSize, UncompressedSize. -/
structure DataDescriptor where
  CRC32 : Nat
  CompressedSize : Nat
  UncompressedSize : Nat
deriving DecidableEq

/-- `binary.Read(reader, binary.LittleEndian, &desc)` on a byte list: the three
32-bit little-endian fields are taken from the first 12 bytes; the read fails
(`none`) when fewer than 12 bytes are available. -/
def readDataDescriptor12 (bs : List Nat) : Option DataDescriptor :=
  if 12 ≤ bs.length then
    some ⟨leNat (bs.take 4), leNat ((bs.drop 4).take 4), leNat (((bs.drop 4).drop 4).take 4)⟩
  else none

/-- `checkDataDescriptor` (main.go lines 106-117): `start := len(buffer) -
sigSize - dataDescriptorSize`; `nil` when `start` would be negative, otherwise
the descriptor parsed from `buffer[start:]`. -/
def checkDataDescriptor (buffer : List Nat) : Option DataDescriptor :=
  if buffer.length < sigSize + dataDescriptorSize then none
  else readDataDescriptor12 (buffer.drop (buffer.length - (sigSize + dataDescriptorSize)))

/-- The descriptor validation done inside `seekToSignature` once the window
ends in a target signature (main.go lines 139-153, duplicated verbatim for the
central-directory case at lines 157-171).  `count` is the Go `int` byte
counter, so the size comparisons are on `Int` exactly as in Go.  On success it
returns the descriptor together with the length of the trailer that is *not*
written to the sink (`sigSize + dataDescriptorSize`, or additionally the
`PK\x07\x08` signature). -/
def validateDescriptor (buffer : List Nat) (count : Nat) : Option (DataDescriptor × Nat) :=
  match checkDataDescriptor buffer with
  | none => none
  | some dd =>
    if (dd.CompressedSize : Int) = (count : Int) - ((sigSize + dataDescriptorSize : Nat) : Int) then
      some (dd, sigSize + dataDescriptorSize)
    else if (dd.CompressedSize : Int)
          = (count : Int) - ((sigSize + dataDescriptorSize + sigSize : Nat) : Int)
        ∧ sigDataDescriptor <:+ buffer.take (buffer.length - (sigSize + dataDescriptorSize)) then
      some (dd, sigSize + dataDescriptorSize + sigSize)
    else none

/-- The `switch ch` dispatch of `seekToSignature` (main.go lines 136-173): the
Go code fires the local case only when the byte just read is `4` and
`bytes.HasSuffix(buffer, sigLocalFileHeader)` holds, and the central case only
when the byte is `2` with the central suffix; since the suffix tests imply the
last-byte tests, the dispatch is exactly a test of the two suffixes.  The
`Bool` is the `hasNextEntry` return value of `seekToSignature` (`true` for a
local-file header, `false` for a central-directory header). -/
def matchSignature (buffer : List Nat) (count : Nat) : Option (Bool × DataDescriptor × Nat) :=
  if sigLocalFileHeader <:+ buffer then
    (validateDescriptor buffer count).map (fun p => (true, p.1, p.2))
  else if sigCentralDirectoryHeader <:+ buffer then
    (validateDescriptor buffer count).map (fun p => (false, p.1, p.2))
  else none

/-- The mutable locals of the `seekToSignature` loop: the sliding window
`buffer`, the byte counter `count`, and the bytes written to the sink `w` so
far (`output`). -/
structure ScanState where
  buffer : List Nat
  count : Nat
  output : List Nat
deriving DecidableEq

/-- Result of `seekToSignature`: `found = some (hasNextEntry, dd)` on a
validated boundary, `found = none` when the byte source is exhausted (the Go
function then returns the read error after flushing the window).  `output` is
everything written to the sink and `rest` the unread remainder of the input. -/
structure ScanResult where
  found : Option (Bool × DataDescriptor)
  output : List Nat
  rest : List Nat
deriving DecidableEq

/-- `max = 100` of `seekToSignature`. -/
def scanBufferMax : Nat := 100

/-- `min = sigSize + dataDescriptorSize + sigSize` of `seekToSignature`. -/
def scanBufferMin : Nat := sigSize + dataDescriptorSize + sigSize

/-- One continue-iteration of the `seekToSignature` loop (main.go lines
128-135 and 174-178): append the byte just read, bump the counter, and when
the window reaches `max` flush all but the last `min` bytes to the sink. -/
def seekStep (st : ScanState) (ch : Nat) : ScanState :=
  if scanBufferMax ≤ (st.buffer ++ [ch]).length then
    ⟨(st.buffer ++ [ch]).drop ((st.buffer ++ [ch]).length - scanBufferMin),
     st.count + 1,
     st.output ++ (st.buffer ++ [ch]).take ((st.buffer ++ [ch]).length - scanBufferMin)⟩
  else ⟨st.buffer ++ [ch], st.count + 1, st.output⟩

/-- The `seekToSignature` loop (main.go lines 127-179) over the remaining
input.  On input exhaustion the window is flushed and the read error returned
(`found = none`); on a validated signature match everything before the trailer
is written and the loop returns. -/
def seekAux : List Nat → ScanState → ScanResult
  | [], st => ⟨none, st.output ++ st.buffer, []⟩
  | ch :: rest, st =>
    match matchSignature (st.buffer ++ [ch]) (st.count + 1) with
    | some (kind, dd, trailer) =>
      ⟨some (kind, dd),
       st.output ++ (st.buffer ++ [ch]).take ((st.buffer ++ [ch]).length - trailer),
       rest⟩
    | none => seekAux rest (seekStep st ch)

/-- `seekToSignature` (main.go lines 119-180) on a byte list. -/
def seekToSignature (input : List Nat) : ScanResult := seekAux input ⟨[], 0, []⟩

/-! ## Specification-side description of the scanner boundary

The next definitions are written from the words of the specification/claims
(refinement targets), not from the Go source: a boundary lies at a scanned
prefix that ends in a 4-byte local- or central-header signature whose
immediately preceding 12 bytes parse little-endian as a data descriptor whose
`CompressedSize` equals the number of payload bytes written so far
(`count - 4 - 12`, or `count - 4 - 12 - 4` when those 12 bytes are themselves
preceded by the `PK\x07\x08` signature); the scanner stops at the first such
prefix. -/

/-- Spec-side: which of the two target signatures ends the scanned prefix
(`true` = local-file header, another entry follows; `false` = central-directory
header, the archive ends). -/
def specKind (pre : List Nat) : Option Bool :=
  if sigLocalFileHeader <:+ pre then some true
  else if sigCentralDirectoryHeader <:+ pre then some false
  else none

/-- Spec-side boundary test on a scanned prefix `pre` (count = `pre.length`).
Returns the found kind, the descriptor parsed from the 12 bytes preceding the
signature, and the trailer length (16, or 20 when those 12 bytes are
themselves preceded by the `PK\x07\x08` descriptor signature). -/
def specBoundary (pre : List Nat) : Option (Bool × DataDescriptor × Nat) :=
  match specKind pre with
  | none => none
  | some k =>
    if 16 ≤ pre.length then
      match readDataDescriptor12 (pre.drop (pre.length - 16)) with
      | none => none
      | some dd =>
        if dd.CompressedSize = pre.length - 16 then some (k, dd, 16)
        else if 20 ≤ pre.length ∧ dd.CompressedSize = pre.length - 20
            ∧ sigDataDescriptor <:+ pre.take (pre.length - 16) then
          some (k, dd, 20)
        else none
    else none

/-- Spec-side scan: the first prefix of the input (the part already consumed,
`pre`, extended byte by byte by the remaining input) that is a valid boundary;
returns its absolute length together with the boundary data.  `none` when no
prefix of the whole input is a valid boundary. -/
def specScanFrom : List Nat → List Nat → Option (Nat × Bool × DataDescriptor × Nat)
  | _, [] => none
  | pre, c :: cs =>
    match specBoundary (pre ++ [c]) with
    | some (k, dd, t) => some ((pre ++ [c]).length, k, dd, t)
    | none => specScanFrom (pre ++ [c]) cs

/-- Spec-side scan of a whole input stream. -/
def specScan (input : List Nat) : Option (Nat × Bool × DataDescriptor × Nat) :=
  specScanFrom [] input

/-! ## Extra-field parsing (`readExtendField`, main.go lines 357-510)

The Go code reads the extra-field region through an `io.LimitedReader` `lr`
capped at `extraFieldLength`, and hands each handler a second
`io.LimitedReader` `llr` capped at the record size and drawing through `lr`.
A read of `k` bytes through such readers delivers `min` of `k`, the limits,
and the available data, and the structured readers (`binary.Read`,
`io.ReadFull`) fail when they deliver fewer than `k` bytes. -/

/-- The `CorruptedZip` metadata updated by the extra-field handlers: the two
size accessors and the three extended timestamps (seconds since 1970; the
handlers overwrite whatever the local file header installed). -/
structure CzMeta where
  originalSize : Nat
  compressedSize : Nat
  lastModificationTime : Nat
  lastAccessTime : Nat
  creationTime : Nat
deriving DecidableEq

/-- The reader seen by an extra-field handler: remaining underlying bytes,
remaining budget of the outer region reader (`lr.N`), and remaining budget of
the per-record reader (`llr.N`). -/
structure LLReader where
  data : List Nat
  lrN : Nat
  llrN : Nat
deriving DecidableEq

/-- Read up to `k` bytes through both limited readers. -/
def llrRead (r : LLReader) (k : Nat) : List Nat × LLReader :=
  (r.data.take (min k (min r.llrN (min r.lrN r.data.length))),
   ⟨r.data.drop (min k (min r.llrN (min r.lrN r.data.length))),
    r.lrN - min k (min r.llrN (min r.lrN r.data.length)),
    r.llrN - min k (min r.llrN (min r.lrN r.data.length))⟩)

/-- `readZIP64` (main.go lines 357-374): two 64-bit little-endian reads; the
first becomes `originalSize`, the second `compressedSize`; a short read is an
error.  (In Go the first assignment survives a failure of the second read;
the error makes the partially updated metadata unobservable here, and the
decoder never consults it after a failed `scan`.) -/
def readZIP64 (r : LLReader) (cz : CzMeta) : Except String (LLReader × CzMeta) :=
  match llrRead r 8 with
  | (b1, r1) =>
    if b1.length = 8 then
      match llrRead r1 8 with
      | (b2, r2) =>
        if b2.length = 8 then
          .ok (r2, { cz with originalSize := leNat b1, compressedSize := leNat b2 })
        else .error "ZIP64 Header: compressSize field broken"
    else .error "ZIP64 Header: originalSize field broken"

/-- `readAsSecondsSince1970` (main.go lines 376-384): one 32-bit
little-endian read. -/
def readAsSecondsSince1970 (r : LLReader) : Except String (LLReader × Nat) :=
  match llrRead r 4 with
  | (b, r1) => if b.length = 4 then .ok (r1, leNat b) else .error "seconds field broken"

/-- One conditional timestamp read of `readTimeStamp`: when the flag bit is
set, read a 32-bit seconds value and store it with `upd`. -/
def condStampRead (flagSet : Bool) (emsg : String) (upd : CzMeta → Nat → CzMeta)
    (r : LLReader) (cz : CzMeta) : Except String (LLReader × CzMeta) :=
  if flagSet then
    match readAsSecondsSince1970 r with
    | .error e => .error (emsg ++ e)
    | .ok (r1, v) => .ok (r1, upd cz v)
  else .ok (r, cz)

/-- `readTimeStamp` (main.go lines 386-414): a 1-byte bit field, then one
optional 32-bit seconds value per set bit (1 = last modification, 2 = last
access, 4 = creation). -/
def readTimeStamp (r : LLReader) (cz : CzMeta) : Except String (LLReader × CzMeta) :=
  match llrRead r 1 with
  | (bf, r0) =>
    if bf.length = 1 then
      match condStampRead (leNat bf &&& 1 != 0) "last modified dateTime: "
          (fun cz v => { cz with lastModificationTime := v }) r0 cz with
      | .error e => .error e
      | .ok (r1, cz1) =>
        match condStampRead (leNat bf &&& 2 != 0) "last access dateTime: "
            (fun cz v => { cz with lastAccessTime := v }) r1 cz1 with
        | .error e => .error e
        | .ok (r2, cz2) =>
          condStampRead (leNat bf &&& 4 != 0) "creation time: "
            (fun cz v => { cz with creationTime := v }) r2 cz2
    else .error "extended fileStamp bit field can not read"

/-- `readWinACL` (main.go lines 416-435): a 9-byte packed header
(`u16 + byte + u16 + u32`), then the rest of the record is copied into a
debug buffer (ignored). -/
def readWinACL (r : LLReader) (cz : CzMeta) : Except String (LLReader × CzMeta) :=
  match llrRead r 9 with
  | (b, r1) =>
    if b.length = 9 then
      match llrRead r1 r1.llrN with
      | (_, r2) => .ok (r2, cz)
    else .error "winacl header broken"

/-- `readNewUnixExtraField` (main.go lines 437-462): version byte + uid-size
byte, `uid-size` bytes of uid, a gid-size byte, `gid-size` bytes of gid; all
ignored. -/
def readNewUnixExtraField (r : LLReader) (cz : CzMeta) : Except String (LLReader × CzMeta) :=
  match llrRead r 2 with
  | (vu, r1) =>
    if vu.length = 2 then
      match llrRead r1 (vu.drop 1).sum with
      | (uid, r2) =>
        if uid.length = (vu.drop 1).sum then
          match llrRead r2 1 with
          | (gs, r3) =>
            if gs.length = 1 then
              match llrRead r3 gs.sum with
              | (gid, r4) =>
                if gid.length = gs.sum then .ok (r4, cz)
                else .error "gid broken"
            else .error "gidSize broken"
        else .error "uid broken"
    else .error "version and uidSize broken"

/-- `extendFieldFunc` (main.go lines 464-476): dispatch on the record ID. -/
def extendFieldFunc (id : Nat) :
    Option (LLReader → CzMeta → Except String (LLReader × CzMeta)) :=
  if id = 0x0001 then some readZIP64
  else if id = 0x5455 then some readTimeStamp
  else if id = 0x4453 then some readWinACL
  else if id = 0x7875 then some readNewUnixExtraField
  else none

/-- The outer region reader of `readExtendField` (`lr`). -/
structure LimitedReader where
  data : List Nat
  n : Nat
deriving DecidableEq

/-- Read up to `k` bytes through the outer limited reader. -/
def lrRead (lr : LimitedReader) (k : Nat) : List Nat × LimitedReader :=
  (lr.data.take (min k (min lr.n lr.data.length)),
   ⟨lr.data.drop (min k (min lr.n lr.data.length)), lr.n - min k (min lr.n lr.data.length)⟩)

/-- The record loop of `readExtendField` (main.go lines 484-505): while at
least 4 bytes remain in the region budget, read a 16-bit ID and 16-bit size,
run the handler (if any) on a sub-reader capped at `size`, then drain what is
left of the sub-reader.  The fuel argument only bounds the recursion; each
iteration consumes at least 4 bytes of the region budget, so `n + 1` fuel is
never exhausted (proved below). -/
def readExtendFieldLoop : Nat → LimitedReader → CzMeta → Except String (LimitedReader × CzMeta)
  | 0, _, _ => .error "out of fuel"
  | fuel + 1, lr, cz =>
    if lr.n < 4 then .ok (lr, cz)
    else
      match lrRead lr 4 with
      | (hd, lr1) =>
        if hd.length = 4 then
          match extendFieldFunc (leNat (hd.take 2)) with
          | some f =>
            match f ⟨lr1.data, lr1.n, leNat (hd.drop 2)⟩ cz with
            | .error e => .error e
            | .ok (r1, cz1) =>
              match llrRead r1 r1.llrN with
              | (_, r2) => readExtendFieldLoop fuel ⟨r2.data, r2.lrN⟩ cz1
          | none =>
            match llrRead ⟨lr1.data, lr1.n, leNat (hd.drop 2)⟩ (leNat (hd.drop 2)) with
            | (_, r2) => readExtendFieldLoop fuel ⟨r2.data, r2.lrN⟩ cz
        else .error "ExtendField Error"

/-- `readExtendField` (main.go lines 478-510): nothing happens on a zero
length; otherwise the record loop runs on the bounded region and the unread
remainder of the region is drained.  Returns the updated metadata and the
remaining stream. -/
def readExtendField (data : List Nat) (n : Nat) (cz : CzMeta) :
    Except String (CzMeta × List Nat) :=
  if n = 0 then .ok (cz, data)
  else
    match readExtendFieldLoop (n + 1) ⟨data, n⟩ cz with
    | .error e => .error e
    | .ok (lr, cz1) =>
      match lrRead lr lr.n with
      | (_, lr1) => .ok (cz1, lr1.data)

/-! ## Spec-side description of the extra-field walk (claim C7)

Written from the claim's words: the bounded region is parsed strictly in
order as records of a 16-bit ID, a 16-bit size and a payload of `size` bytes;
a record whose ID is not recognized is skipped by advancing exactly `size`
bytes; parsing stops as soon as fewer than 4 bytes remain, and the remainder
of the region is drained. -/

/-- Spec-side walk over the region contents.  A recognized handler runs on
exactly the record payload (clipped at the region end). -/
def specWalk (region : List Nat) (cz : CzMeta) : Except String CzMeta :=
  if _h : region.length < 4 then .ok cz
  else
    match extendFieldFunc (leNat (region.take 2)) with
    | none => specWalk ((region.drop 4).drop (leNat ((region.drop 2).take 2))) cz
    | some f =>
      match f ⟨(region.drop 4).take (leNat ((region.drop 2).take 2)),
          ((region.drop 4).take (leNat ((region.drop 2).take 2))).length,
          leNat ((region.drop 2).take 2)⟩ cz with
      | .error e => .error e
      | .ok (_, cz1) => specWalk ((region.drop 4).drop (leNat ((region.drop 2).take 2))) cz1
termination_by region.length
decreasing_by
  all_goals simp only [List.length_drop]
  all_goals omega

/-! ## Errors, filename decoding, the decrypter, and the scan driver

The remaining definitions model the error values surfaced by the decoder
(claims C4, C5, C6) and the PKWARE stream cipher (claims C5, C8). -/

/-- Error values of the decoder. The constructors mirror the Go error
values relevant to the claims: io.EOF, io.ErrUnexpectedEOF,
ErrLocalFileHeaderSignatureNotFound, the decrypter's PasswordError,
transform.ErrShortSrc, ErrPassword (an encrypted entry was met but no
password source is ready), a wrapped extra-field error, and the
unsupported-compression-method error. An injected filename decoder may
fail with any of these, standing for an arbitrary Go error. -/
inductive ZipErr where
  | eof
  | unexpectedEOF
  | signatureNotFound
  | passwordError
  | shortSrc
  | passwordRequired (name : List Nat)
  | extendField (msg : String)
  | unsupportedMethod (m : Nat)
deriving DecidableEq

/-- Model of `readFilenameField` (main.go lines 338-355): read exactly `n`
bytes (`io.ReadFull` yields io.EOF when nothing is available and a
non-zero count was requested, io.ErrUnexpectedEOF on a partial read),
decode them verbatim when the UTF-8 bit is set and through the injected
decoder otherwise, then strip leading slash characters with
`strings.TrimLeft(fname, "/")`. (Go returns the partially decoded name
alongside a decoder error; the name accompanying an error is never used.) -/
def readFilenameField (stream : List Nat) (n : Nat) (utf8 : Bool)
    (decoder : List Nat → Except ZipErr (List Nat)) :
    Except ZipErr (List Nat × List Nat) :=
  if stream.length < n then
    (if stream.length = 0 then .error .eof else .error .unexpectedEOF)
  else
    match (if utf8 then Except.ok (stream.take n) else decoder (stream.take n)) with
    | .error e => .error e
    | .ok fname => .ok (fname.dropWhile (fun b => b == 47), stream.drop n)

/-! ### The PKWARE decrypter (src/unnamed/part_006) -/

/-- One round of the reflected CRC-32 feedback used to build
`crc32.IEEETable`: shift right once, folding in the polynomial 0xEDB88320
when the dropped bit was set. -/
def crc32Round (t : Nat) : Nat :=
  if t &&& 1 = 1 then 0xEDB88320 ^^^ (t >>> 1) else t >>> 1

/-- Iterate `crc32Round`. -/
def crc32RoundIter : Nat → Nat → Nat
  | 0, t => t
  | k + 1, t => crc32RoundIter k (crc32Round t)

/-- Entry `i` of `crc32.IEEETable`: eight feedback rounds applied to `i`. -/
def crc32Table (i : Nat) : Nat := crc32RoundIter 8 i

/-- The helper `_crc32(n1, n2)` of the decrypter file (part_006 lines
98-100): `crc32.IEEETable[(n1^(n2&0xFF))&0xFF] ^ (n1 >> 8)`. All inputs
reaching it are below 2^32, so no wrap-around is needed beyond the
masks written in the source. -/
def _crc32 (n1 n2 : Nat) : Nat :=
  crc32Table ((n1 ^^^ (n2 &&& 255)) &&& 255) ^^^ (n1 >>> 8)

/-- The three key registers of the decrypter (`key [3]uint32`). -/
structure Keys where
  k0 : Nat
  k1 : Nat
  k2 : Nat
deriving DecidableEq

/-- `decrypter.Reset` (part_006 lines 29-34): the decimal constants of the
source, 305419896 = 0x12345678, 591751049 = 0x23456789,
878082192 = 0x34567890. -/
def Keys.reset : Keys := ⟨305419896, 591751049, 878082192⟩

/-- `decrypter.updateKeys` (part_006 lines 36-41); the two `key[1]`
assignments are uint32 arithmetic, hence the explicit mod 2^32. -/
def updateKeys (k : Keys) (b : Nat) : Keys :=
  let k0 := _crc32 k.k0 b
  let k1a := (k.k1 + (k0 &&& 255)) % 2 ^ 32
  let k1 := (k1a * 134775813 + 1) % 2 ^ 32
  ⟨k0, k1, _crc32 k.k2 ((k1 >>> 24) &&& 255)⟩

/-- `decrypter.decryptByte` (part_006 lines 43-46): `tmp := key[2] | 2;
byte((tmp * (tmp ^ 1)) >> 8)`, with the uint32 product wrap and the final
byte conversion written out. -/
def decryptByte (k : Keys) : Nat :=
  ((((k.k2 ||| 2) * ((k.k2 ||| 2) ^^^ 1)) % 2 ^ 32) >>> 8) % 256

/-- `decrypter.decrypt` (part_006 lines 48-52): XOR with the keystream
byte, then feed the plaintext byte back into the keys. -/
def decrypt (k : Keys) (b : Nat) : Nat × Keys :=
  (b ^^^ decryptByte k, updateKeys k (b ^^^ decryptByte k))

/-- Decrypt a list of bytes, threading the keys. -/
def decryptList : Keys → List Nat → List Nat × Keys
  | k, [] => ([], k)
  | k, b :: bs =>
    ((decrypt k b).1 :: (decryptList (decrypt k b).2 bs).1,
     (decryptList (decrypt k b).2 bs).2)

/-- Feeding the password into the keys (`for _, b := range pwd {
d.updateKeys(b) }`). -/
def ingestPassword (k : Keys) (pwd : List Nat) : Keys := pwd.foldl updateKeys k

/-- Model of `_PasswordHolder` (main.go lines 182-200). The Go getter asks
the user and may differ between invocations; `getter` indexed by the count
of calls made so far models the successive answers, and `lastword` caches
the most recent one exactly as the pointer field does. -/
structure PasswordHolder where
  getter : Nat → List Nat
  calls : Nat
  lastword : Option (List Nat)

/-- `_PasswordHolder.Ask` (main.go lines 191-200): consult the getter when
retrying or when no password is cached, otherwise return the cache. -/
def PasswordHolder.ask (p : PasswordHolder) (retry : Bool) :
    List Nat × PasswordHolder :=
  if retry ∨ p.lastword = none then
    (p.getter p.calls, ⟨p.getter, p.calls + 1, some (p.getter p.calls)⟩)
  else (p.lastword.getD [], p)

/-- The decrypter state (part_006 lines 15-21); the entry name carried for
error messages is omitted. -/
structure Decrypter where
  check : Nat
  keys : Keys
  first : Bool
  pwdHolder : PasswordHolder

/-- `newDecrypter` (part_006 lines 23-27): keys reset, first-call flag
set. -/
def newDecrypter (check : Nat) (ph : PasswordHolder) : Decrypter :=
  ⟨check, Keys.reset, true, ph⟩

/-- The password attempt loop of `decrypter.Transform` (part_006 lines
62-82): at most three attempts; each attempt asks the holder (retry from
the second attempt on), ingests the password into freshly reset keys
(`d.Reset()` runs on every failure), decrypts the 12 header bytes, and
passes when the last plaintext byte equals `byte(d.check >> 8)`. -/
def headerCheckLoop (check : Nat) (src : List Nat) (ph : PasswordHolder)
    (i : Nat) : Except ZipErr (Keys × PasswordHolder) :=
  if _h : 3 ≤ i then .error .passwordError
  else
    match ph.ask (decide (0 < i)) with
    | (pwd, ph1) =>
      match decryptList (ingestPassword Keys.reset pwd) (src.take 12) with
      | (plain, k1) =>
        if plain.getLast? = some ((check >>> 8) % 256) then .ok (k1, ph1)
        else headerCheckLoop check src ph1 (i + 1)
termination_by 3 - i
decreasing_by omega

/-- `decrypter.Transform` (part_006 lines 56-96) on a full buffer: on the
first call, fewer than 12 source bytes is transform.ErrShortSrc; otherwise
the attempt loop consumes the 12-byte header and the remaining bytes are
decrypted with the surviving keys. (The destination is unbounded here, so
transform.ErrShortDst cannot occur, and `atEOF` is irrelevant.) -/
def Decrypter.Transform (d : Decrypter) (src : List Nat) :
    Except ZipErr (List Nat × Decrypter) :=
  if d.first then
    if src.length < 12 then .error .shortSrc
    else
      match headerCheckLoop d.check src d.pwdHolder 0 with
      | .error e => .error e
      | .ok (k1, ph1) =>
        match decryptList k1 (src.drop 12) with
        | (dst, k2) => .ok (dst, ⟨d.check, k2, false, ph1⟩)
  else
    match decryptList d.keys src with
    | (dst, k2) => .ok (dst, ⟨d.check, k2, false, d.pwdHolder⟩)

/-! ### Spec-side description of the cipher (claim C8)

Written from the claim's words: `crc32_step(k, b) =
CRC32_TABLE_IEEE[(k ^ b) & 0xFF] XOR (k >> 8)`; `updateKeys(b)` sets
`key[0] = crc32_step(key[0], b)`, `key[1] = (key[1] + (key[0] & 0xFF)) *
0x08088405 + 1` modulo 2^32, `key[2] = crc32_step(key[2],
(key[1] >> 24) & 0xFF)`; the keystream byte is
`((t * (t XOR 1)) >> 8) & 0xFF` with `t = key[2] | 2`. -/

/-- Spec-side CRC step. -/
def crc32_step (k b : Nat) : Nat :=
  crc32Table ((k ^^^ b) &&& 255) ^^^ (k >>> 8)

/-- Spec-side key update. -/
def specUpdateKeys (k : Keys) (b : Nat) : Keys :=
  let k0 := crc32_step k.k0 b
  let k1 := ((k.k1 + (k0 &&& 255)) * 134775813 + 1) % 2 ^ 32
  ⟨k0, k1, crc32_step k.k2 ((k1 >>> 24) &&& 255)⟩

/-- Spec-side keystream byte. -/
def specStreamByte (k : Keys) : Nat :=
  (((k.k2 ||| 2) * ((k.k2 ||| 2) ^^^ 1)) >>> 8) &&& 255

/-! ### Spec-side description of the password attempts (claim C5) -/

/-- Plaintext and keys produced by decrypting the 12 header bytes with the
password of attempt `i` ingested into freshly reset keys. -/
def attemptKeys (g : Nat → List Nat) (src : List Nat) (i : Nat) :
    List Nat × Keys :=
  decryptList (ingestPassword Keys.reset (g i)) (src.take 12)

/-- Whether attempt `i` passes the header check: the last of the 12
plaintext bytes equals `byte(check >> 8)`. -/
def attemptPasses (g : Nat → List Nat) (check : Nat) (src : List Nat)
    (i : Nat) : Bool :=
  (attemptKeys g src i).1.getLast? == some ((check >>> 8) % 256)

/-! ### The scan driver (claim C6) -/

/-- Bit 0 of the general-purpose flags: the entry is encrypted. -/
def bitEncrypted : Nat := 1

/-- Bit 3 of the general-purpose flags: sizes live in a data descriptor
after the body. -/
def bitDataDescriptorUsed : Nat := 8

/-- Bit 11 of the general-purpose flags: the filename is UTF-8. -/
def bitEncodedUTF8 : Nat := 2048

/-- The 26-byte little-endian local file header record that follows the
PK\x03\x04 signature (`_LocalFileHeader`, main.go lines 38-49). -/
structure _LocalFileHeader where
  RequiredVersion : Nat
  Bits : Nat
  Method : Nat
  ModifiedTime : Nat
  ModifiedDate : Nat
  CRC32 : Nat
  CompressedSize : Nat
  UncompressedSize : Nat
  FilenameLength : Nat
  ExtendFieldSize : Nat
deriving DecidableEq

/-- The `binary.Read` of the header at main.go line 543: 26 bytes, little
endian, failing with io.EOF on an empty stream and io.ErrUnexpectedEOF on
a partial one. -/
def readLocalFileHeader (stream : List Nat) :
    Except ZipErr (_LocalFileHeader × List Nat) :=
  if stream.length = 0 then .error .eof
  else if stream.length < 26 then .error .unexpectedEOF
  else .ok (⟨leNat (stream.take 2), leNat ((stream.drop 2).take 2),
    leNat ((stream.drop 4).take 2), leNat ((stream.drop 6).take 2),
    leNat ((stream.drop 8).take 2), leNat ((stream.drop 10).take 4),
    leNat ((stream.drop 14).take 4), leNat ((stream.drop 18).take 4),
    leNat ((stream.drop 22).take 2), leNat ((stream.drop 24).take 2)⟩,
    stream.drop 26)

/-- The decoder state observable across `Scan` calls: the unread input,
the bytes the previous entry left for its closer to drain, the
`nextSignatureAlreadyRead` flag, and the `hasNextEntry` / `bgErr` results
installed by a background descriptor scan (`func() bool` and `func()
error` in Go, forced lazily; both are plain values here because the
model's descriptor scan is synchronous). `passwordReady` models
`passwordHolder.Ready()`. -/
structure CZ where
  stream : List Nat
  pendingDiscard : Nat
  nextSignatureAlreadyRead : Bool
  hasNextEntry : Bool
  bgErr : Option ZipErr
  passwordReady : Bool
deriving DecidableEq

/-- The signature step of `scan` (main.go lines 530-541): unless the
previous descriptor scan already consumed it, read 4 bytes; the central
directory signature means a normal end (io.EOF), anything other than the
local file header signature is ErrLocalFileHeaderSignatureNotFound. -/
def scanSig (s0 : List Nat) (alreadyRead : Bool) : Except ZipErr (List Nat) :=
  if alreadyRead then .ok s0
  else if s0.length = 0 then .error .eof
  else if s0.length < 4 then .error .unexpectedEOF
  else if s0.take 4 = sigCentralDirectoryHeader then .error .eof
  else if s0.take 4 = sigLocalFileHeader then .ok (s0.drop 4)
  else .error .signatureNotFound

/-- State left by a non-directory entry (main.go lines 591-631): with a
data descriptor the body is scanned to the next boundary at once (the Go
goroutine, synchronous here) and its outcome is deposited in
`hasNextEntry` / `bgErr` (a scan that ran out of input reports io.EOF);
without one, the body of `compressedSize` bytes is left for the closer of
the next `Scan` call to drain. -/
def fileEntryState (cz : CZ) (hdr : _LocalFileHeader) (m : CzMeta)
    (s4 : List Nat) : CZ :=
  if hdr.Bits &&& bitDataDescriptorUsed ≠ 0 then
    { stream := (seekToSignature s4).rest, pendingDiscard := 0,
      nextSignatureAlreadyRead := true,
      hasNextEntry := (match (seekToSignature s4).found with
        | some (k, _) => k
        | none => false),
      bgErr := (match (seekToSignature s4).found with
        | some _ => none
        | none => some ZipErr.eof),
      passwordReady := cz.passwordReady }
  else
    { stream := s4, pendingDiscard := m.compressedSize,
      nextSignatureAlreadyRead := false, hasNextEntry := true, bgErr := none,
      passwordReady := cz.passwordReady }

/-- `CorruptedZip.scan` (main.go lines 520-645). In order: drain what the
previous entry left (`cz.Close()`), propagate a background error, stop at
a previously detected end, read the signature, the header, the filename
and the extra field, then dispatch on directory vs file and on the
data-descriptor bit; an encrypted file without a ready password source is
ErrPassword, and a compression method other than Store (0) or Deflate (8)
is unsupported. The DOS-format header timestamps are not modelled (no
claim mentions them), so the initial metadata carries zeros there. On an
error the post-error fields are not modelled (Go callers stop at a
non-io.EOF error). -/
def scan (dec : List Nat → Except ZipErr (List Nat)) (cz : CZ) :
    Except ZipErr CZ :=
  match cz.bgErr with
  | some e => .error e
  | none =>
    if cz.hasNextEntry then
      match scanSig (cz.stream.drop cz.pendingDiscard)
          cz.nextSignatureAlreadyRead with
      | .error e => .error e
      | .ok s1 =>
        match readLocalFileHeader s1 with
        | .error e => .error e
        | .ok (hdr, s2) =>
          match readFilenameField s2 hdr.FilenameLength
              ((hdr.Bits &&& bitEncodedUTF8) != 0) dec with
          | .error e => .error e
          | .ok (name, s3) =>
            match readExtendField s3 hdr.ExtendFieldSize
                ⟨hdr.UncompressedSize, hdr.CompressedSize, 0, 0, 0⟩ with
            | .error e => .error (ZipErr.extendField e)
            | .ok (m, s4) =>
              if name.getLast? = some 47 then
                if hdr.Bits &&& bitDataDescriptorUsed ≠ 0 then
                  match (seekToSignature s4).found with
                  | none => .error .eof
                  | some (k, _) =>
                    .ok ⟨(seekToSignature s4).rest, 0, true, k, none,
                      cz.passwordReady⟩
                else
                  if s4.length < m.compressedSize then .error .eof
                  else .ok ⟨s4.drop m.compressedSize, 0, false, true, none,
                    cz.passwordReady⟩
              else
                if hdr.Bits &&& bitEncrypted ≠ 0 ∧ cz.passwordReady = false then
                  .error (ZipErr.passwordRequired name)
                else if hdr.Method = 0 ∨ hdr.Method = 8 then
                  .ok (fileEntryState cz hdr m s4)
                else .error (ZipErr.unsupportedMethod hdr.Method)
    else .error .eof

/-- `Scan` and `Err` together (main.go lines 647-656 and 291-297): the
boolean is `Scan()`'s result; the option is what `Err()` returns
afterwards. `Scan` stores nil for io.EOF and the error otherwise, and
`Err` falls back on `bgErr()` when the stored error is nil; on every
io.EOF-returning path of `scan` the `bgErr` closure still holds the value
it had on entry (the reset at main.go line 549 only matters on paths that
return later errors), so the entry value stands in for it. -/
def scanAndErr (dec : List Nat → Except ZipErr (List Nat)) (cz : CZ) :
    Bool × Option ZipErr :=
  match scan dec cz with
  | .ok cz1 => (true, cz1.bgErr)
  | .error e => (false, if e = ZipErr.eof then cz.bgErr else some e)

/-! ## Relating the nested limited readers to plain record payloads -/

/-- A reader evolution that only consumes: `c` bytes disappeared from the
data and from both budgets. -/
def ReaderStep (r r' : LLReader) : Prop :=
  ∃ c, c ≤ r.llrN ∧ c ≤ r.lrN ∧ c ≤ r.data.length ∧
    r' = ⟨r.data.drop c, r.lrN - c, r.llrN - c⟩

/-- The spec-side view of a handler reader: same record budget, data clipped
to the deliverable bytes (`min llrN lrN` of them), outer budget equal to the
clipped length; the real reader satisfies `lrN ≤ data.length`. -/
def SpecView (r rs : LLReader) : Prop :=
  r.lrN ≤ r.data.length ∧ rs.llrN = r.llrN ∧
  rs.data = r.data.take (min r.llrN r.lrN) ∧ rs.lrN = min r.llrN r.lrN

/-- Uniform statement of the handler transfer: on the spec view the handler
errs exactly when it errs on the real reader, and on success it produces the
same metadata, a consumed real reader, and a matching spec view. -/
def HandlerOK (f : LLReader → CzMeta → Except String (LLReader × CzMeta)) : Prop :=
  ∀ r rs cz, SpecView r rs →
    (∀ e, f rs cz = .error e → f r cz = .error e) ∧
    (∀ rs' cz', f rs cz = .ok (rs', cz') →
      ∃ r', f r cz = .ok (r', cz') ∧ SpecView r' rs' ∧ ReaderStep r r')

theorem ReaderStep.refl (r : LLReader) : ReaderStep r r := by
  obtain ⟨d, a, b⟩ := r
  exact ⟨0, by omega, by omega, by omega, by simp⟩

theorem ReaderStep.comp {r r' r'' : LLReader} (h1 : ReaderStep r r')
    (h2 : ReaderStep r' r'') : ReaderStep r r'' := by
  obtain ⟨c1, hb1, hl1, hd1, rfl⟩ := h1
  obtain ⟨c2, hb2, hl2, hd2, rfl⟩ := h2
  simp only [List.length_drop] at hb2 hl2 hd2
  refine ⟨c1 + c2, by omega, by omega, by omega, ?_⟩
  dsimp only
  rw [List.drop_drop]
  congr 1 <;> omega

/-- Reading `k` bytes delivers the same bytes through the real reader and its
spec view, preserves the view, and is a pure consumption of the real reader. -/
theorem llrRead_agree {r rs : LLReader} (h : SpecView r rs) (k : Nat) :
    (llrRead rs k).1 = (llrRead r k).1 ∧ SpecView (llrRead r k).2 (llrRead rs k).2 ∧
    ReaderStep r (llrRead r k).2 := by
  obtain ⟨hinv, hllr, hdata, hlrn⟩ := h
  simp only [llrRead, SpecView, hllr, hdata, hlrn, List.length_take, List.length_drop]
  have e1 : min k (min r.llrN (min (min r.llrN r.lrN)
      (min (min r.llrN r.lrN) r.data.length))) = min k (min r.llrN r.lrN) := by
    omega
  have e2 : min k (min r.llrN (min r.lrN r.data.length)) = min k (min r.llrN r.lrN) := by
    omega
  rw [e1, e2]
  refine ⟨?_, ⟨by omega, rfl, ?_, by omega⟩, ?_⟩
  · rw [List.take_take]
    congr 1
    omega
  · rw [List.drop_take]
    congr 1
    omega
  · exact ⟨min k (min r.llrN r.lrN), by omega, by omega, by omega, rfl⟩

/-- Projection form of `readZIP64` (the match on the read pair, unfolded). -/
theorem readZIP64_eq (r : LLReader) (cz : CzMeta) :
    readZIP64 r cz =
      (if (llrRead r 8).1.length = 8 then
        if (llrRead (llrRead r 8).2 8).1.length = 8 then
          .ok ((llrRead (llrRead r 8).2 8).2,
            { cz with originalSize := leNat (llrRead r 8).1,
                      compressedSize := leNat (llrRead (llrRead r 8).2 8).1 })
        else .error "ZIP64 Header: compressSize field broken"
      else .error "ZIP64 Header: originalSize field broken") := rfl

theorem readZIP64_handlerOK : HandlerOK readZIP64 := by
  intro r rs cz h
  obtain ⟨hag1, hview1, hstep1⟩ := llrRead_agree h 8
  obtain ⟨hag2, hview2, hstep2⟩ := llrRead_agree hview1 8
  rw [readZIP64_eq, readZIP64_eq, hag1, hag2]
  constructor
  · intro e he
    by_cases h1 : (llrRead r 8).1.length = 8
    · rw [if_pos h1] at he ⊢
      by_cases h2 : (llrRead (llrRead r 8).2 8).1.length = 8
      · rw [if_pos h2] at he
        exact Except.noConfusion he
      · rw [if_neg h2] at he ⊢
        exact he
    · rw [if_neg h1] at he ⊢
      exact he
  · intro rs' cz' hok
    by_cases h1 : (llrRead r 8).1.length = 8
    · rw [if_pos h1] at hok ⊢
      by_cases h2 : (llrRead (llrRead r 8).2 8).1.length = 8
      · rw [if_pos h2] at hok ⊢
        simp only [Except.ok.injEq, Prod.mk.injEq] at hok
        obtain ⟨hrs, hcz⟩ := hok
        subst hrs
        subst hcz
        exact ⟨(llrRead (llrRead r 8).2 8).2, rfl, hview2, hstep1.comp hstep2⟩
      · rw [if_neg h2] at hok
        exact Except.noConfusion hok
    · rw [if_neg h1] at hok
      exact Except.noConfusion hok

/-- Projection form of `readAsSecondsSince1970`. -/
theorem readAsSecondsSince1970_eq (r : LLReader) :
    readAsSecondsSince1970 r =
      (if (llrRead r 4).1.length = 4 then .ok ((llrRead r 4).2, leNat (llrRead r 4).1)
      else .error "seconds field broken") := rfl

/-- Transfer of the single seconds read between a reader and its spec view. -/
theorem readSeconds_agree {r rs : LLReader} (h : SpecView r rs) :
    (∀ e, readAsSecondsSince1970 rs = .error e → readAsSecondsSince1970 r = .error e) ∧
    (∀ rs' v, readAsSecondsSince1970 rs = .ok (rs', v) →
      ∃ r', readAsSecondsSince1970 r = .ok (r', v) ∧ SpecView r' rs' ∧ ReaderStep r r') := by
  obtain ⟨hag, hview, hstep⟩ := llrRead_agree h 4
  rw [readAsSecondsSince1970_eq, readAsSecondsSince1970_eq, hag]
  by_cases h4 : (llrRead r 4).1.length = 4
  · rw [if_pos h4, if_pos h4]
    refine ⟨fun e he => Except.noConfusion he, ?_⟩
    intro rs' v hok
    simp only [Except.ok.injEq, Prod.mk.injEq] at hok
    obtain ⟨h1, h2⟩ := hok
    subst h1
    subst h2
    exact ⟨_, rfl, hview, hstep⟩
  · rw [if_neg h4, if_neg h4]
    exact ⟨fun e he => he, fun rs' v hok => Except.noConfusion hok⟩

/-- Transfer of one conditional timestamp read. -/
theorem condStampRead_agree (flagSet : Bool) (emsg : String) (upd : CzMeta → Nat → CzMeta)
    {r rs : LLReader} (cz : CzMeta) (h : SpecView r rs) :
    (∀ e, condStampRead flagSet emsg upd rs cz = .error e →
        condStampRead flagSet emsg upd r cz = .error e) ∧
    (∀ rs' cz', condStampRead flagSet emsg upd rs cz = .ok (rs', cz') →
      ∃ r', condStampRead flagSet emsg upd r cz = .ok (r', cz') ∧
        SpecView r' rs' ∧ ReaderStep r r') := by
  unfold condStampRead
  cases flagSet with
  | false =>
    rw [if_neg Bool.false_ne_true, if_neg Bool.false_ne_true]
    refine ⟨fun e he => Except.noConfusion he, ?_⟩
    intro rs' cz' hok
    simp only [Except.ok.injEq, Prod.mk.injEq] at hok
    obtain ⟨h1, h2⟩ := hok
    subst h1
    subst h2
    exact ⟨r, rfl, h, ReaderStep.refl r⟩
  | true =>
    rw [if_pos rfl, if_pos rfl]
    obtain ⟨herr, hok⟩ := readSeconds_agree h
    cases hs : readAsSecondsSince1970 rs with
    | error e0 =>
      rw [herr e0 hs]
      exact ⟨fun e he => he, fun rs' cz' hk => Except.noConfusion hk⟩
    | ok p =>
      obtain ⟨rs1, v⟩ := p
      obtain ⟨r1, hr1, hview1, hstep1⟩ := hok rs1 v hs
      rw [hr1]
      refine ⟨fun e he => Except.noConfusion he, ?_⟩
      intro rs' cz' hk
      simp only [Except.ok.injEq, Prod.mk.injEq] at hk
      obtain ⟨h1, h2⟩ := hk
      subst h1
      subst h2
      exact ⟨r1, rfl, hview1, hstep1⟩

/-- Projection form of `readTimeStamp`. -/
theorem readTimeStamp_eq (r : LLReader) (cz : CzMeta) :
    readTimeStamp r cz =
      (if (llrRead r 1).1.length = 1 then
        match condStampRead (leNat (llrRead r 1).1 &&& 1 != 0) "last modified dateTime: "
            (fun cz v => { cz with lastModificationTime := v }) (llrRead r 1).2 cz with
        | .error e => .error e
        | .ok (r1, cz1) =>
          match condStampRead (leNat (llrRead r 1).1 &&& 2 != 0) "last access dateTime: "
              (fun cz v => { cz with lastAccessTime := v }) r1 cz1 with
          | .error e => .error e
          | .ok (r2, cz2) =>
            condStampRead (leNat (llrRead r 1).1 &&& 4 != 0) "creation time: "
              (fun cz v => { cz with creationTime := v }) r2 cz2
      else .error "extended fileStamp bit field can not read") := rfl

theorem readTimeStamp_handlerOK : HandlerOK readTimeStamp := by
  intro r rs cz h
  obtain ⟨hag, hview0, hstep0⟩ := llrRead_agree h 1
  rw [readTimeStamp_eq, readTimeStamp_eq, hag]
  by_cases h1 : (llrRead r 1).1.length = 1
  · rw [if_pos h1, if_pos h1]
    obtain ⟨herr1, hok1⟩ := condStampRead_agree (leNat (llrRead r 1).1 &&& 1 != 0)
      "last modified dateTime: " (fun cz v => { cz with lastModificationTime := v }) cz hview0
    cases hc1 : condStampRead (leNat (llrRead r 1).1 &&& 1 != 0) "last modified dateTime: "
        (fun cz v => { cz with lastModificationTime := v }) (llrRead rs 1).2 cz with
    | error e0 =>
      rw [herr1 e0 hc1]
      exact ⟨fun e he => he, fun rs' cz' hk => Except.noConfusion hk⟩
    | ok p1 =>
      obtain ⟨rs1, cz1⟩ := p1
      obtain ⟨r1, hr1, hview1, hstep1⟩ := hok1 rs1 cz1 hc1
      rw [hr1]
      dsimp only
      obtain ⟨herr2, hok2⟩ := condStampRead_agree (leNat (llrRead r 1).1 &&& 2 != 0)
        "last access dateTime: " (fun cz v => { cz with lastAccessTime := v }) cz1 hview1
      cases hc2 : condStampRead (leNat (llrRead r 1).1 &&& 2 != 0) "last access dateTime: "
          (fun cz v => { cz with lastAccessTime := v }) rs1 cz1 with
      | error e0 =>
        rw [herr2 e0 hc2]
        exact ⟨fun e he => he, fun rs' cz' hk => Except.noConfusion hk⟩
      | ok p2 =>
        obtain ⟨rs2, cz2⟩ := p2
        obtain ⟨r2, hr2, hview2, hstep2⟩ := hok2 rs2 cz2 hc2
        rw [hr2]
        dsimp only
        obtain ⟨herr3, hok3⟩ := condStampRead_agree (leNat (llrRead r 1).1 &&& 4 != 0)
          "creation time: " (fun cz v => { cz with creationTime := v }) cz2 hview2
        refine ⟨fun e he => herr3 e he, ?_⟩
        intro rs' cz' hk
        obtain ⟨r3, hr3, hview3, hstep3⟩ := hok3 rs' cz' hk
        exact ⟨r3, hr3, hview3, ((hstep0.comp hstep1).comp hstep2).comp hstep3⟩
  · rw [if_neg h1, if_neg h1]
    exact ⟨fun e he => he, fun rs' cz' hk => Except.noConfusion hk⟩

/-- Projection form of `readWinACL`. -/
theorem readWinACL_eq (r : LLReader) (cz : CzMeta) :
    readWinACL r cz =
      (if (llrRead r 9).1.length = 9 then
        .ok ((llrRead (llrRead r 9).2 (llrRead r 9).2.llrN).2, cz)
      else .error "winacl header broken") := rfl

theorem readWinACL_handlerOK : HandlerOK readWinACL := by
  intro r rs cz h
  obtain ⟨hag, hview1, hstep1⟩ := llrRead_agree h 9
  have hll : (llrRead rs 9).2.llrN = (llrRead r 9).2.llrN := hview1.2.1
  obtain ⟨hag2, hview2, hstep2⟩ := llrRead_agree hview1 ((llrRead r 9).2.llrN)
  rw [readWinACL_eq, readWinACL_eq, hag, hll]
  by_cases h9 : (llrRead r 9).1.length = 9
  · rw [if_pos h9, if_pos h9]
    refine ⟨fun e he => Except.noConfusion he, ?_⟩
    intro rs' cz' hok
    simp only [Except.ok.injEq, Prod.mk.injEq] at hok
    obtain ⟨h1, h2⟩ := hok
    subst h1
    subst h2
    exact ⟨_, rfl, hview2, hstep1.comp hstep2⟩
  · rw [if_neg h9, if_neg h9]
    exact ⟨fun e he => he, fun rs' cz' hok => Except.noConfusion hok⟩

theorem readNewUnixExtraField_handlerOK : HandlerOK readNewUnixExtraField := by
  intro r rs cz h
  unfold readNewUnixExtraField
  obtain ⟨hag1, hview1, hstep1⟩ := llrRead_agree h 2
  rcases hE1 : llrRead r 2 with ⟨b1, r1⟩
  rcases hE1s : llrRead rs 2 with ⟨b1s, rs1⟩
  rw [hE1] at hag1 hview1 hstep1
  rw [hE1s] at hag1 hview1
  dsimp only at hag1 hview1 hstep1 ⊢
  rw [hag1]
  by_cases hL1 : b1.length = 2
  · rw [if_pos hL1, if_pos hL1]
    obtain ⟨hag2, hview2, hstep2⟩ := llrRead_agree hview1 (b1.drop 1).sum
    rcases hE2 : llrRead r1 (b1.drop 1).sum with ⟨b2, r2⟩
    rcases hE2s : llrRead rs1 (b1.drop 1).sum with ⟨b2s, rs2⟩
    rw [hE2] at hag2 hview2 hstep2
    rw [hE2s] at hag2 hview2
    dsimp only at hag2 hview2 hstep2 ⊢
    rw [hag2]
    by_cases hL2 : b2.length = (b1.drop 1).sum
    · rw [if_pos hL2, if_pos hL2]
      obtain ⟨hag3, hview3, hstep3⟩ := llrRead_agree hview2 1
      rcases hE3 : llrRead r2 1 with ⟨b3, r3⟩
      rcases hE3s : llrRead rs2 1 with ⟨b3s, rs3⟩
      rw [hE3] at hag3 hview3 hstep3
      rw [hE3s] at hag3 hview3
      dsimp only at hag3 hview3 hstep3 ⊢
      rw [hag3]
      by_cases hL3 : b3.length = 1
      · rw [if_pos hL3, if_pos hL3]
        obtain ⟨hag4, hview4, hstep4⟩ := llrRead_agree hview3 b3.sum
        rcases hE4 : llrRead r3 b3.sum with ⟨b4, r4⟩
        rcases hE4s : llrRead rs3 b3.sum with ⟨b4s, rs4⟩
        rw [hE4] at hag4 hview4 hstep4
        rw [hE4s] at hag4 hview4
        dsimp only at hag4 hview4 hstep4 ⊢
        rw [hag4]
        by_cases hL4 : b4.length = b3.sum
        · rw [if_pos hL4, if_pos hL4]
          refine ⟨fun e he => Except.noConfusion he, ?_⟩
          intro rs' cz' hok
          simp only [Except.ok.injEq, Prod.mk.injEq] at hok
          obtain ⟨h1, h2⟩ := hok
          subst h1
          subst h2
          exact ⟨r4, rfl, hview4, ((hstep1.comp hstep2).comp hstep3).comp hstep4⟩
        · rw [if_neg hL4, if_neg hL4]
          exact ⟨fun e he => he, fun rs' cz' hok => Except.noConfusion hok⟩
      · rw [if_neg hL3, if_neg hL3]
        exact ⟨fun e he => he, fun rs' cz' hok => Except.noConfusion hok⟩
    · rw [if_neg hL2, if_neg hL2]
      exact ⟨fun e he => he, fun rs' cz' hok => Except.noConfusion hok⟩
  · rw [if_neg hL1, if_neg hL1]
    exact ⟨fun e he => he, fun rs' cz' hok => Except.noConfusion hok⟩

/-- Every handler of the dispatch table satisfies the transfer property. -/
theorem extendFieldFunc_handlerOK (id : Nat) :
    ∀ f, extendFieldFunc id = some f → HandlerOK f := by
  intro f hf
  unfold extendFieldFunc at hf
  split at hf
  · cases hf
    exact readZIP64_handlerOK
  · split at hf
    · cases hf
      exact readTimeStamp_handlerOK
    · split at hf
      · cases hf
        exact readWinACL_handlerOK
      · split at hf
        · cases hf
          exact readNewUnixExtraField_handlerOK
        · cases hf

/-- The record loop refines the spec-side walk: same error, same final
metadata, and on success the loop stops with fewer than 4 budget bytes left
having consumed exactly the walked part of the region. -/
theorem readExtendFieldLoop_eq (fuel : Nat) :
    ∀ (lr : LimitedReader) (cz : CzMeta),
    lr.n ≤ lr.data.length → lr.n < fuel →
    (∀ e, specWalk (lr.data.take lr.n) cz = .error e →
        readExtendFieldLoop fuel lr cz = .error e) ∧
    (∀ cz', specWalk (lr.data.take lr.n) cz = .ok cz' →
        ∃ lr', readExtendFieldLoop fuel lr cz = .ok (lr', cz') ∧
          lr'.n < 4 ∧ lr'.n ≤ lr.n ∧ lr'.n ≤ lr'.data.length ∧
          lr'.data = lr.data.drop (lr.n - lr'.n)) := by
  induction fuel with
  | zero =>
    intro lr cz _ hfuel
    exact absurd hfuel (by omega)
  | succ m ih =>
    intro lr cz hinv hfuel
    have hreglen : (lr.data.take lr.n).length = lr.n := by
      rw [List.length_take]
      omega
    by_cases hsmall : lr.n < 4
    · have hcode : readExtendFieldLoop (m + 1) lr cz = .ok (lr, cz) := by
        simp only [readExtendFieldLoop]
        rw [if_pos hsmall]
      have hspec : specWalk (lr.data.take lr.n) cz = .ok cz := by
        rw [specWalk, dif_pos (by omega : (lr.data.take lr.n).length < 4)]
      rw [hcode, hspec]
      refine ⟨fun e he => Except.noConfusion he, ?_⟩
      intro cz' hok
      simp only [Except.ok.injEq] at hok
      subst hok
      exact ⟨lr, rfl, hsmall, le_refl _, hinv, by simp⟩
    · have hge : 4 ≤ lr.n := by omega
      have ht4 : min 4 (min lr.n lr.data.length) = 4 := by omega
      have hhdr : lrRead lr 4 = (lr.data.take 4, ⟨lr.data.drop 4, lr.n - 4⟩) := by
        unfold lrRead
        rw [ht4]
      have hlen4 : (lr.data.take 4).length = 4 := by
        rw [List.length_take]
        omega
      have hid : (lr.data.take lr.n).take 2 = (lr.data.take 4).take 2 := by
        rw [List.take_take, List.take_take]
        congr 1
        omega
      have hsz : ((lr.data.take lr.n).drop 2).take 2 = (lr.data.take 4).drop 2 := by
        rw [List.drop_take, List.drop_take, List.take_take]
        congr 1
        omega
      have hunfold : readExtendFieldLoop (m + 1) lr cz =
          (match extendFieldFunc (leNat ((lr.data.take 4).take 2)) with
           | some f =>
             match f ⟨lr.data.drop 4, lr.n - 4, leNat ((lr.data.take 4).drop 2)⟩ cz with
             | .error e => .error e
             | .ok (r1, cz1) =>
               match llrRead r1 r1.llrN with
               | (_, r2) => readExtendFieldLoop m ⟨r2.data, r2.lrN⟩ cz1
           | none =>
             match llrRead ⟨lr.data.drop 4, lr.n - 4, leNat ((lr.data.take 4).drop 2)⟩
                 (leNat ((lr.data.take 4).drop 2)) with
             | (_, r2) => readExtendFieldLoop m ⟨r2.data, r2.lrN⟩ cz) := by
        simp only [readExtendFieldLoop]
        rw [if_neg hsmall, hhdr]
        dsimp only
        rw [if_pos hlen4]
      have hswalk : specWalk (lr.data.take lr.n) cz =
          (match extendFieldFunc (leNat ((lr.data.take 4).take 2)) with
           | none =>
             specWalk (((lr.data.take lr.n).drop 4).drop (leNat ((lr.data.take 4).drop 2))) cz
           | some f =>
             match f ⟨((lr.data.take lr.n).drop 4).take (leNat ((lr.data.take 4).drop 2)),
                 (((lr.data.take lr.n).drop 4).take (leNat ((lr.data.take 4).drop 2))).length,
                 leNat ((lr.data.take 4).drop 2)⟩ cz with
             | .error e => .error e
             | .ok (_, cz1) =>
               specWalk (((lr.data.take lr.n).drop 4).drop (leNat ((lr.data.take 4).drop 2))) cz1) := by
        rw [specWalk, dif_neg (by omega : ¬ (lr.data.take lr.n).length < 4)]
        rw [hid, hsz]
      rw [hunfold, hswalk]
      have htail : ∀ cz1 : CzMeta,
          (∀ e, specWalk (((lr.data.take lr.n).drop 4).drop (leNat ((lr.data.take 4).drop 2)))
              cz1 = .error e →
            readExtendFieldLoop m
              ⟨(lr.data.drop 4).drop (min (leNat ((lr.data.take 4).drop 2)) (lr.n - 4)),
               lr.n - 4 - min (leNat ((lr.data.take 4).drop 2)) (lr.n - 4)⟩ cz1 = .error e) ∧
          (∀ cz2, specWalk (((lr.data.take lr.n).drop 4).drop (leNat ((lr.data.take 4).drop 2)))
              cz1 = .ok cz2 →
            ∃ lr', readExtendFieldLoop m
                ⟨(lr.data.drop 4).drop (min (leNat ((lr.data.take 4).drop 2)) (lr.n - 4)),
                 lr.n - 4 - min (leNat ((lr.data.take 4).drop 2)) (lr.n - 4)⟩ cz1
                = .ok (lr', cz2) ∧
              lr'.n < 4 ∧ lr'.n ≤ lr.n ∧ lr'.n ≤ lr'.data.length ∧
              lr'.data = lr.data.drop (lr.n - lr'.n)) := by
        intro cz1
        have hinv2 : lr.n - 4 - min (leNat ((lr.data.take 4).drop 2)) (lr.n - 4)
            ≤ ((lr.data.drop 4).drop (min (leNat ((lr.data.take 4).drop 2)) (lr.n - 4))).length := by
          simp only [List.length_drop]
          omega
        have hfl2 : lr.n - 4 - min (leNat ((lr.data.take 4).drop 2)) (lr.n - 4) < m := by omega
        have hreg2 : ((lr.data.drop 4).drop (min (leNat ((lr.data.take 4).drop 2)) (lr.n - 4))).take
              (lr.n - 4 - min (leNat ((lr.data.take 4).drop 2)) (lr.n - 4))
            = ((lr.data.take lr.n).drop 4).drop (leNat ((lr.data.take 4).drop 2)) := by
          have e1 : (lr.data.drop 4).drop (min (leNat ((lr.data.take 4).drop 2)) (lr.n - 4))
              = lr.data.drop (4 + min (leNat ((lr.data.take 4).drop 2)) (lr.n - 4)) :=
            List.drop_drop _ 4 lr.data
          have e2 : ((lr.data.take lr.n).drop 4).drop (leNat ((lr.data.take 4).drop 2))
              = (lr.data.take lr.n).drop (4 + leNat ((lr.data.take 4).drop 2)) :=
            List.drop_drop _ 4 _
          rw [e1, e2, List.drop_take lr.n (4 + leNat ((lr.data.take 4).drop 2)) lr.data]
          by_cases hcase : leNat ((lr.data.take 4).drop 2) ≤ lr.n - 4
          · have e3 : min (leNat ((lr.data.take 4).drop 2)) (lr.n - 4)
                = leNat ((lr.data.take 4).drop 2) := by omega
            rw [e3]
            congr 1
            omega
          · have e3 : lr.n - 4 - min (leNat ((lr.data.take 4).drop 2)) (lr.n - 4) = 0 := by
              omega
            have e4 : lr.n - (4 + leNat ((lr.data.take 4).drop 2)) = 0 := by omega
            rw [e3, e4, List.take_zero, List.take_zero]
        obtain ⟨ih_err, ih_ok⟩ := ih
          ⟨(lr.data.drop 4).drop (min (leNat ((lr.data.take 4).drop 2)) (lr.n - 4)),
           lr.n - 4 - min (leNat ((lr.data.take 4).drop 2)) (lr.n - 4)⟩ cz1 hinv2 hfl2
        dsimp only at ih_err ih_ok
        rw [hreg2] at ih_err ih_ok
        refine ⟨ih_err, ?_⟩
        intro cz2 hok
        obtain ⟨lr', hl, h4, hle, hinvd, hdata⟩ := ih_ok cz2 hok
        refine ⟨lr', hl, h4, by omega, hinvd, ?_⟩
        rw [hdata, List.drop_drop, List.drop_drop]
        congr 1
        omega
      cases hef : extendFieldFunc (leNat ((lr.data.take 4).take 2)) with
      | none =>
        dsimp only
        have hdrain : llrRead ⟨lr.data.drop 4, lr.n - 4, leNat ((lr.data.take 4).drop 2)⟩
            (leNat ((lr.data.take 4).drop 2)) =
            ((lr.data.drop 4).take (min (leNat ((lr.data.take 4).drop 2)) (lr.n - 4)),
             ⟨(lr.data.drop 4).drop (min (leNat ((lr.data.take 4).drop 2)) (lr.n - 4)),
              lr.n - 4 - min (leNat ((lr.data.take 4).drop 2)) (lr.n - 4),
              leNat ((lr.data.take 4).drop 2)
                - min (leNat ((lr.data.take 4).drop 2)) (lr.n - 4)⟩) := by
          unfold llrRead
          dsimp only
          rw [List.length_drop]
          have e : min (leNat ((lr.data.take 4).drop 2)) (min (leNat ((lr.data.take 4).drop 2))
              (min (lr.n - 4) (lr.data.length - 4)))
              = min (leNat ((lr.data.take 4).drop 2)) (lr.n - 4) := by omega
          rw [e]
        rw [hdrain]
        dsimp only
        exact htail cz
      | some f =>
        dsimp only
        have hview : SpecView ⟨lr.data.drop 4, lr.n - 4, leNat ((lr.data.take 4).drop 2)⟩
            ⟨((lr.data.take lr.n).drop 4).take (leNat ((lr.data.take 4).drop 2)),
             (((lr.data.take lr.n).drop 4).take (leNat ((lr.data.take 4).drop 2))).length,
             leNat ((lr.data.take 4).drop 2)⟩ := by
          refine ⟨by simp only [List.length_drop]; omega, rfl, ?_, ?_⟩
          · dsimp only
            rw [List.drop_take lr.n 4 lr.data, List.take_take]
          · dsimp only
            simp only [List.length_take, List.length_drop]
            omega
        obtain ⟨hOKerr, hOKok⟩ := extendFieldFunc_handlerOK _ f hef _ _ cz hview
        cases hf : f ⟨((lr.data.take lr.n).drop 4).take (leNat ((lr.data.take 4).drop 2)),
            (((lr.data.take lr.n).drop 4).take (leNat ((lr.data.take 4).drop 2))).length,
            leNat ((lr.data.take 4).drop 2)⟩ cz with
        | error e0 =>
          rw [hOKerr e0 hf]
          dsimp only
          refine ⟨?_, fun cz2 hk => Except.noConfusion hk⟩
          intro e he
          simp only [Except.error.injEq] at he
          subst he
          rfl
        | ok p =>
          obtain ⟨rs1, cz1⟩ := p
          obtain ⟨r1, hr1, hview1, hstep1⟩ := hOKok rs1 cz1 hf
          rw [hr1]
          dsimp only
          obtain ⟨cH, hcb, hcl, hcd, hr1eq⟩ := hstep1
          dsimp only at hcb hcl hcd
          subst hr1eq
          dsimp only
          have hdr : llrRead ⟨(lr.data.drop 4).drop cH, lr.n - 4 - cH,
              leNat ((lr.data.take 4).drop 2) - cH⟩ (leNat ((lr.data.take 4).drop 2) - cH) =
              (((lr.data.drop 4).drop cH).take
                  (min (leNat ((lr.data.take 4).drop 2)) (lr.n - 4) - cH),
               ⟨((lr.data.drop 4).drop cH).drop
                   (min (leNat ((lr.data.take 4).drop 2)) (lr.n - 4) - cH),
                lr.n - 4 - cH - (min (leNat ((lr.data.take 4).drop 2)) (lr.n - 4) - cH),
                leNat ((lr.data.take 4).drop 2) - cH
                  - (min (leNat ((lr.data.take 4).drop 2)) (lr.n - 4) - cH)⟩) := by
            unfold llrRead
            dsimp only
            rw [List.length_drop, List.length_drop]
            have e : min (leNat ((lr.data.take 4).drop 2) - cH)
                (min (leNat ((lr.data.take 4).drop 2) - cH)
                  (min (lr.n - 4 - cH) (lr.data.length - 4 - cH)))
                = min (leNat ((lr.data.take 4).drop 2)) (lr.n - 4) - cH := by omega
            rw [e]
          rw [hdr]
          dsimp only
          have e1 : ((lr.data.drop 4).drop cH).drop
              (min (leNat ((lr.data.take 4).drop 2)) (lr.n - 4) - cH)
              = (lr.data.drop 4).drop (min (leNat ((lr.data.take 4).drop 2)) (lr.n - 4)) := by
            rw [List.drop_drop]
            congr 1
            omega
          have e2 : lr.n - 4 - cH - (min (leNat ((lr.data.take 4).drop 2)) (lr.n - 4) - cH)
              = lr.n - 4 - min (leNat ((lr.data.take 4).drop 2)) (lr.n - 4) := by omega
          rw [e1, e2]
          exact htail cz1

/-- `readExtendField` refines the spec-side walk of the bounded region: same
error or same final metadata, and on success exactly the `n` region bytes are
consumed from the stream. -/
theorem readExtendField_eq_specWalk (data : List Nat) (n : Nat) (cz : CzMeta)
    (h : n ≤ data.length) :
    readExtendField data n cz =
      (match specWalk (data.take n) cz with
       | .ok cz' => .ok (cz', data.drop n)
       | .error e => .error e) := by
  unfold readExtendField
  by_cases hn : n = 0
  · subst hn
    rw [if_pos rfl]
    have hw : specWalk (data.take 0) cz = .ok cz := by
      rw [specWalk, dif_pos (by simp)]
    rw [hw, List.drop_zero]
  · rw [if_neg hn]
    obtain ⟨herr, hok⟩ := readExtendFieldLoop_eq (n + 1) ⟨data, n⟩ cz h (Nat.lt_succ_self n)
    dsimp only at herr hok
    cases hs : specWalk (data.take n) cz with
    | error e =>
      rw [herr e hs]
    | ok cz' =>
      obtain ⟨lr', hl, h4, hle, hinvd, hdata⟩ := hok cz' hs
      rw [hl]
      dsimp only
      have hfd : lrRead lr' lr'.n = (lr'.data.take lr'.n, ⟨lr'.data.drop lr'.n, 0⟩) := by
        unfold lrRead
        have e : min lr'.n (min lr'.n lr'.data.length) = lr'.n := by omega
        rw [e, Nat.sub_self]
      rw [hfd]
      dsimp only
      rw [hdata, List.drop_drop]
      have e : n - lr'.n + lr'.n = n := by omega
      rw [e]

/-! ## Claim theorems for the extra-field parser -/

/-- **C7**: `readExtendField` parses the bounded region of length
`extraFieldLength` as a sequence of records (16-bit ID, 16-bit size, payload)
strictly in order; a record whose ID is not recognized is skipped by
advancing exactly `size` bytes; the loop stops as soon as fewer than 4 bytes
remain in the region, and any remaining bytes of the region are then drained
from the stream.  Formally: on a stream holding the whole region the code
equals the spec-side record walk `specWalk` and consumes exactly the `n`
region bytes. -/
theorem readExtendField_parses_records_in_order (data : List Nat) (n : Nat) (cz : CzMeta)
    (h : n ≤ data.length) :
    readExtendField data n cz =
      (match specWalk (data.take n) cz with
       | .ok cz' => .ok (cz', data.drop n)
       | .error e => .error e) :=
  readExtendField_eq_specWalk data n cz h

/-- Witness for C7: a region holding one unknown record (ID `0x3412`, size 2)
followed by 3 residual bytes is walked and fully drained. -/
theorem readExtendField_parses_records_in_order_witness :
    readExtendField [18, 52, 2, 0, 170, 187, 1, 2, 3] 9 ⟨0, 0, 0, 0, 0⟩ =
      (match specWalk (([18, 52, 2, 0, 170, 187, 1, 2, 3] : List Nat).take 9) ⟨0, 0, 0, 0, 0⟩ with
       | .ok cz' => .ok (cz', ([18, 52, 2, 0, 170, 187, 1, 2, 3] : List Nat).drop 9)
       | .error e => .error e) :=
  readExtendField_parses_records_in_order [18, 52, 2, 0, 170, 187, 1, 2, 3] 9 ⟨0, 0, 0, 0, 0⟩
    (by decide)

/-- **C3, counterexample**: a ZIP64 (ID 0x0001) record shorter than 16 bytes
is not tolerated: on a record of declared size 12 the second 64-bit read
fails and `readExtendField` reports an error instead of parsing the record. -/
theorem readZIP64_short_record_counterexample :
    readExtendField [1, 0, 12, 0, 0, 0, 0, 0, 0, 0, 0, 0, 0, 0, 0, 0] 16
        ⟨4294967295, 4294967295, 0, 0, 0⟩ =
      .error "ZIP64 Header: compressSize field broken" := rfl

/-- **C3, amended**: a ZIP64 (ID 0x0001) extra-field record carries, in
order, the upgraded 64-bit UncompressedSize then CompressedSize, and after
parsing it the reported sizes come from those 64-bit fields rather than the
32-bit header fields; a record with fewer than 16 available bytes causes an
error (it is not tolerated), while bytes of the record beyond the first 16
are ignored.  Concretely (scenario S4, with two trailing record bytes): a
header with both 32-bit sizes `0xFFFFFFFF` and a ZIP64 record carrying
`2 ^ 32` twice reports both sizes as `2 ^ 32`. -/
theorem readZIP64_upgrades_sizes :
    (∀ (cz : CzMeta) (r : LLReader), 16 ≤ min r.llrN (min r.lrN r.data.length) →
      readZIP64 r cz = .ok ((llrRead (llrRead r 8).2 8).2,
        { cz with originalSize := leNat (r.data.take 8),
                  compressedSize := leNat ((r.data.drop 8).take 8) })) ∧
    (∀ (cz : CzMeta) (r : LLReader), min r.llrN (min r.lrN r.data.length) < 16 →
      ∃ e, readZIP64 r cz = .error e) ∧
    readExtendField
        ([1, 0, 18, 0] ++ [0, 0, 0, 0, 1, 0, 0, 0] ++ [0, 0, 0, 0, 1, 0, 0, 0] ++ [222, 173])
        22 ⟨4294967295, 4294967295, 0, 0, 0⟩ =
      .ok (⟨4294967296, 4294967296, 0, 0, 0⟩, []) := by
  refine ⟨?_, ?_, rfl⟩
  · intro cz r h16
    have hE1 : llrRead r 8 = (r.data.take 8, ⟨r.data.drop 8, r.lrN - 8, r.llrN - 8⟩) := by
      unfold llrRead
      have e : min 8 (min r.llrN (min r.lrN r.data.length)) = 8 := by omega
      rw [e]
    have hE2 : llrRead (⟨r.data.drop 8, r.lrN - 8, r.llrN - 8⟩ : LLReader) 8 =
        ((r.data.drop 8).take 8,
         ⟨(r.data.drop 8).drop 8, r.lrN - 8 - 8, r.llrN - 8 - 8⟩) := by
      unfold llrRead
      dsimp only
      rw [List.length_drop]
      have e : min 8 (min (r.llrN - 8) (min (r.lrN - 8) (r.data.length - 8))) = 8 := by omega
      rw [e]
    rw [readZIP64_eq, hE1]
    dsimp only
    rw [hE2]
    dsimp only
    rw [if_pos (by rw [List.length_take]; omega),
      if_pos (by rw [List.length_take, List.length_drop]; omega)]
  · intro cz r hlt
    rw [readZIP64_eq]
    by_cases h8 : (llrRead r 8).1.length = 8
    · rw [if_pos h8]
      have hfst : (llrRead r 8).1 = r.data.take (min 8 (min r.llrN (min r.lrN r.data.length))) :=
        rfl
      have h8' : 8 ≤ min r.llrN (min r.lrN r.data.length) := by
        rw [hfst, List.length_take] at h8
        omega
      have hE1 : llrRead r 8 = (r.data.take 8, ⟨r.data.drop 8, r.lrN - 8, r.llrN - 8⟩) := by
        unfold llrRead
        have e : min 8 (min r.llrN (min r.lrN r.data.length)) = 8 := by omega
        rw [e]
      rw [hE1]
      dsimp only
      have hE2 : llrRead (⟨r.data.drop 8, r.lrN - 8, r.llrN - 8⟩ : LLReader) 8 =
          ((r.data.drop 8).take (min 8 (min (r.llrN - 8) (min (r.lrN - 8)
            (r.data.length - 8)))),
           ⟨(r.data.drop 8).drop (min 8 (min (r.llrN - 8) (min (r.lrN - 8)
              (r.data.length - 8)))),
            r.lrN - 8 - min 8 (min (r.llrN - 8) (min (r.lrN - 8) (r.data.length - 8))),
            r.llrN - 8 - min 8 (min (r.llrN - 8) (min (r.lrN - 8) (r.data.length - 8)))⟩) := by
        unfold llrRead
        dsimp only
        rw [List.length_drop]
      rw [hE2]
      dsimp only
      rw [if_neg (by rw [List.length_take, List.length_drop]; omega)]
      exact ⟨_, rfl⟩
    · rw [if_neg h8]
      exact ⟨_, rfl⟩

/-- Witness for C3: the upgrade equation applied at a concrete reader holding
a 16-byte ZIP64 record with value `2 ^ 32` in each 64-bit field. -/
theorem readZIP64_upgrades_sizes_witness :
    readZIP64 ⟨[0, 0, 0, 0, 1, 0, 0, 0, 0, 0, 0, 0, 1, 0, 0, 0], 16, 16⟩ ⟨0, 0, 0, 0, 0⟩ =
      .ok ((llrRead (llrRead ⟨[0, 0, 0, 0, 1, 0, 0, 0, 0, 0, 0, 0, 1, 0, 0, 0], 16, 16⟩ 8).2 8).2,
        { (⟨0, 0, 0, 0, 0⟩ : CzMeta) with
            originalSize := leNat (([0, 0, 0, 0, 1, 0, 0, 0, 0, 0, 0, 0, 1, 0, 0, 0] :
              List Nat).take 8),
            compressedSize := leNat ((([0, 0, 0, 0, 1, 0, 0, 0, 0, 0, 0, 0, 1, 0, 0, 0] :
              List Nat).drop 8).take 8) }) :=
  readZIP64_upgrades_sizes.1 ⟨0, 0, 0, 0, 0⟩
    ⟨[0, 0, 0, 0, 1, 0, 0, 0, 0, 0, 0, 0, 1, 0, 0, 0], 16, 16⟩ (by decide)

/-! ## List toolbox for the scanner equivalence -/

theorem trailer16 : sigSize + dataDescriptorSize = 16 := rfl

theorem trailer20 : sigSize + dataDescriptorSize + sigSize = 20 := rfl

/-- A suffix test transfers between a list and any longer list it is a suffix
of, as long as the candidate fits inside the shorter list. -/
theorem suffix_transfer {s l₁ l₂ : List Nat} (h : l₁ <:+ l₂) (hlen : s.length ≤ l₁.length) :
    (s <:+ l₁ ↔ s <:+ l₂) := by
  have hl : l₁.length ≤ l₂.length := h.length_le
  constructor
  · exact fun hs => hs.trans h
  · intro hs
    have e1 : l₁ = l₂.drop (l₂.length - l₁.length) := List.suffix_iff_eq_drop.mp h
    have e2 : s = l₂.drop (l₂.length - s.length) := List.suffix_iff_eq_drop.mp hs
    have key : l₁.drop (l₁.length - s.length) = l₂.drop (l₂.length - s.length) := by
      conv_lhs => rw [e1]
      rw [List.drop_drop]
      congr 1
      simp only [List.length_drop]
      omega
    rw [List.suffix_iff_eq_drop, key]
    exact e2

/-- The last `k` elements agree between a list and a list it is a suffix of. -/
theorem drop_sub_transfer {l₁ l₂ : List Nat} (h : l₁ <:+ l₂) (k : Nat) (hk : k ≤ l₁.length) :
    l₁.drop (l₁.length - k) = l₂.drop (l₂.length - k) := by
  have hl : l₁.length ≤ l₂.length := h.length_le
  have e1 : l₁ = l₂.drop (l₂.length - l₁.length) := List.suffix_iff_eq_drop.mp h
  conv_lhs => rw [e1]
  rw [List.drop_drop]
  congr 1
  simp only [List.length_drop]
  omega

/-- Chopping the last 16 elements preserves the suffix relation (when they
exist in the shorter list). -/
theorem take_sub_suffix {l₁ l₂ : List Nat} (h : l₁ <:+ l₂) (hk : 16 ≤ l₁.length) :
    l₁.take (l₁.length - 16) <:+ l₂.take (l₂.length - 16) := by
  have hl : l₁.length ≤ l₂.length := h.length_le
  have e1 : l₁ = l₂.drop (l₂.length - l₁.length) := List.suffix_iff_eq_drop.mp h
  have len1 : (l₁.take (l₁.length - 16)).length = l₁.length - 16 := by
    rw [List.length_take]; omega
  have len2 : (l₂.take (l₂.length - 16)).length = l₂.length - 16 := by
    rw [List.length_take]; omega
  rw [List.suffix_iff_eq_drop, len1, len2]
  have hd : l₂.length - 16 - (l₁.length - 16) = l₂.length - l₁.length := by omega
  rw [hd, List.drop_take]
  have hm : l₂.length - 16 - (l₂.length - l₁.length) = l₁.length - 16 := by omega
  rw [hm, ← e1]

/-- `checkDataDescriptor` looks only at the last 16 bytes, so it transfers
from the window to the whole scanned prefix. -/
theorem checkDataDescriptor_transfer {b pre : List Nat} (h : b <:+ pre) (h16 : 16 ≤ b.length) :
    checkDataDescriptor b = checkDataDescriptor pre := by
  have hl : b.length ≤ pre.length := h.length_le
  unfold checkDataDescriptor
  rw [trailer16, if_neg (by omega), if_neg (by omega),
    drop_sub_transfer h 16 h16]

/-- `validateDescriptor` looks only at the last 20 bytes and the byte counter,
so it transfers from the window to the whole scanned prefix. -/
theorem validateDescriptor_transfer {b pre : List Nat} (h : b <:+ pre) (h20 : 20 ≤ b.length)
    (count : Nat) : validateDescriptor b count = validateDescriptor pre count := by
  have h16 : 16 ≤ b.length := by omega
  have hl : b.length ≤ pre.length := h.length_le
  unfold validateDescriptor
  rw [checkDataDescriptor_transfer h h16]
  cases hdd : checkDataDescriptor pre with
  | none => rfl
  | some dd =>
    have htk : (sigDataDescriptor <:+ b.take (b.length - (sigSize + dataDescriptorSize)))
        ↔ (sigDataDescriptor <:+ pre.take (pre.length - (sigSize + dataDescriptorSize))) := by
      rw [trailer16]
      refine suffix_transfer (take_sub_suffix h h16) ?_
      rw [List.length_take]
      have : sigDataDescriptor.length = 4 := rfl
      omega
    simp only [htk]

/-- `matchSignature` looks only at the last 20 bytes of the window and the
byte counter, so it transfers from the window to the whole scanned prefix. -/
theorem matchSignature_transfer {b pre : List Nat} (h : b <:+ pre) (h20 : 20 ≤ b.length)
    (count : Nat) : matchSignature b count = matchSignature pre count := by
  have hsl : (sigLocalFileHeader <:+ b) ↔ (sigLocalFileHeader <:+ pre) := by
    refine suffix_transfer h ?_
    have : sigLocalFileHeader.length = 4 := rfl
    omega
  have hsc : (sigCentralDirectoryHeader <:+ b) ↔ (sigCentralDirectoryHeader <:+ pre) := by
    refine suffix_transfer h ?_
    have : sigCentralDirectoryHeader.length = 4 := rfl
    omega
  unfold matchSignature
  simp only [hsl, hsc, validateDescriptor_transfer h h20 count]

/-- At a full scanned prefix (window = prefix, count = its length), the code's
descriptor validation agrees with the spec-side boundary body. -/
theorem validateDescriptor_at_length (pre : List Nat) (k : Bool) :
    (validateDescriptor pre pre.length).map (fun p => (k, p.1, p.2)) =
      (if 16 ≤ pre.length then
        match readDataDescriptor12 (pre.drop (pre.length - 16)) with
        | none => none
        | some dd =>
          if dd.CompressedSize = pre.length - 16 then some (k, dd, 16)
          else if 20 ≤ pre.length ∧ dd.CompressedSize = pre.length - 20
              ∧ sigDataDescriptor <:+ pre.take (pre.length - 16) then some (k, dd, 20)
          else none
      else none) := by
  unfold validateDescriptor checkDataDescriptor
  rw [trailer20, trailer16]
  by_cases h16 : 16 ≤ pre.length
  · rw [if_neg (by omega : ¬ pre.length < 16), if_pos h16]
    cases hdd : readDataDescriptor12 (pre.drop (pre.length - 16)) with
    | none => rfl
    | some dd =>
      have e1 : ((dd.CompressedSize : Int) = (pre.length : Int) - ((16 : Nat) : Int)) ↔
          dd.CompressedSize = pre.length - 16 := by omega
      have e2 : (((dd.CompressedSize : Int) = (pre.length : Int) - ((20 : Nat) : Int)) ∧
            sigDataDescriptor <:+ pre.take (pre.length - 16)) ↔
          (20 ≤ pre.length ∧ dd.CompressedSize = pre.length - 20 ∧
            sigDataDescriptor <:+ pre.take (pre.length - 16)) := by
        constructor
        · rintro ⟨hi, hS⟩
          exact ⟨by omega, by omega, hS⟩
        · rintro ⟨h20, hB, hS⟩
          exact ⟨by omega, hS⟩
      simp only [e1, e2]
      by_cases hA : dd.CompressedSize = pre.length - 16
      · rw [if_pos hA, if_pos hA]
        rfl
      · rw [if_neg hA, if_neg hA]
        by_cases hB : 20 ≤ pre.length ∧ dd.CompressedSize = pre.length - 20 ∧
            sigDataDescriptor <:+ pre.take (pre.length - 16)
        · rw [if_pos hB, if_pos hB]
          rfl
        · rw [if_neg hB, if_neg hB]
          rfl
  · rw [if_pos (by omega : pre.length < 16), if_neg h16]
    rfl

/-- At a full scanned prefix, the code's signature dispatch equals the
spec-side boundary test. -/
theorem matchSignature_eq_specBoundary (pre : List Nat) :
    matchSignature pre pre.length = specBoundary pre := by
  unfold matchSignature specBoundary specKind
  by_cases h1 : sigLocalFileHeader <:+ pre
  · rw [if_pos h1, if_pos h1]
    exact validateDescriptor_at_length pre true
  · rw [if_neg h1, if_neg h1]
    by_cases h2 : sigCentralDirectoryHeader <:+ pre
    · rw [if_pos h2, if_pos h2]
      exact validateDescriptor_at_length pre false
    · rw [if_neg h2, if_neg h2]

/-- A spec-side boundary has trailer 16 (no descriptor signature) or 20 (with
it), never longer than the prefix. -/
theorem specBoundary_bounds {pre : List Nat} {k : Bool} {dd : DataDescriptor} {t : Nat}
    (h : specBoundary pre = some (k, dd, t)) :
    (t = 16 ∧ 16 ≤ pre.length) ∨ (t = 20 ∧ 20 ≤ pre.length) := by
  unfold specBoundary at h
  split at h
  · cases h
  · split at h
    · rename_i h16
      split at h
      · cases h
      · split at h
        · simp only [Option.some.injEq, Prod.mk.injEq] at h
          left
          exact ⟨h.2.2.symm, h16⟩
        · split at h
          · rename_i hB
            simp only [Option.some.injEq, Prod.mk.injEq] at h
            right
            exact ⟨h.2.2.symm, hB.1⟩
          · cases h
    · cases h

theorem scanBufferMin_eq : scanBufferMin = 20 := rfl

theorem scanBufferMax_eq : scanBufferMax = 100 := rfl

/-- One continue-step of the scanner preserves the loop invariant: the counter
tracks the scanned prefix, sink plus window reassemble the prefix, the window
is the whole prefix or at least 20 bytes long, and the window stays under the
capacity. -/
theorem seekStep_inv (st : ScanState) (c : Nat) (pre : List Nat)
    (hc : st.count = pre.length) (ho : st.output ++ st.buffer = pre)
    (hbuf : st.buffer = pre ∨ 20 ≤ st.buffer.length) (hlen : st.buffer.length ≤ 99) :
    (seekStep st c).count = (pre ++ [c]).length ∧
    ((seekStep st c).output ++ (seekStep st c).buffer = pre ++ [c]) ∧
    ((seekStep st c).buffer = pre ++ [c] ∨ 20 ≤ (seekStep st c).buffer.length) ∧
    (seekStep st c).buffer.length ≤ 99 := by
  unfold seekStep
  by_cases hmax : scanBufferMax ≤ (st.buffer ++ [c]).length
  · rw [if_pos hmax]
    rw [scanBufferMax_eq] at hmax
    refine ⟨by simp [hc], ?_, ?_, ?_⟩
    · rw [List.append_assoc, List.take_append_drop, ← List.append_assoc, ho]
    · right
      rw [scanBufferMin_eq, List.length_drop]
      omega
    · rw [scanBufferMin_eq, List.length_drop]
      omega
  · rw [if_neg hmax]
    rw [scanBufferMax_eq] at hmax
    have hsmall : (st.buffer ++ [c]).length ≤ 99 := by
      simp only [List.length_append, List.length_cons, List.length_nil] at hmax ⊢
      omega
    refine ⟨by simp [hc], by rw [← List.append_assoc, ho], ?_, hsmall⟩
    rcases hbuf with hb | hb
    · left
      rw [hb]
    · right
      simp only [List.length_append, List.length_cons, List.length_nil]
      omega

/-- Main loop lemma: under the loop invariant, the scanner loop refines the
spec-side first-boundary search, both in what it reports and in what it
writes to the sink. -/
theorem seekAux_spec (rest : List Nat) :
    ∀ (pre : List Nat) (st : ScanState),
    st.count = pre.length → st.output ++ st.buffer = pre →
    (st.buffer = pre ∨ 20 ≤ st.buffer.length) → st.buffer.length ≤ 99 →
    ((seekAux rest st).found = (specScanFrom pre rest).map (fun r => (r.2.1, r.2.2.1))
     ∧ (specScanFrom pre rest = none → (seekAux rest st).output = pre ++ rest)
     ∧ (∀ n k dd t, specScanFrom pre rest = some (n, k, dd, t) →
          (seekAux rest st).output = (pre ++ rest).take (n - t))) := by
  induction rest with
  | nil =>
    intro pre st hc ho hbuf hlen
    refine ⟨rfl, ?_, ?_⟩
    · intro _
      show st.output ++ st.buffer = pre ++ []
      rw [ho, List.append_nil]
    · intro n k dd t h
      cases h
  | cons c cs ih =>
    intro pre st hc ho hbuf hlen
    have hbpre : st.buffer ++ [c] <:+ pre ++ [c] :=
      ⟨st.output, by rw [← List.append_assoc, ho]⟩
    have hmatch : matchSignature (st.buffer ++ [c]) (st.count + 1) = specBoundary (pre ++ [c]) := by
      have hcnt : st.count + 1 = (pre ++ [c]).length := by simp [hc]
      rw [hcnt]
      rcases hbuf with hb | hb
      · rw [hb]
        exact matchSignature_eq_specBoundary _
      · rw [matchSignature_transfer hbpre (by simp only [List.length_append,
          List.length_cons, List.length_nil]; omega) _]
        exact matchSignature_eq_specBoundary _
    cases hsb : specBoundary (pre ++ [c]) with
    | some r =>
      obtain ⟨k, dd, t⟩ := r
      have hstep : seekAux (c :: cs) st =
          ⟨some (k, dd),
           st.output ++ (st.buffer ++ [c]).take ((st.buffer ++ [c]).length - t), cs⟩ := by
        simp only [seekAux, hmatch, hsb]
      have hspec : specScanFrom pre (c :: cs) = some ((pre ++ [c]).length, k, dd, t) := by
        simp only [specScanFrom, hsb]
      have hbnd := specBoundary_bounds hsb
      have htb : t ≤ (st.buffer ++ [c]).length := by
        rcases hbuf with hb | hb
        · rw [hb]
          rcases hbnd with ⟨rfl, h⟩ | ⟨rfl, h⟩ <;> omega
        · simp only [List.length_append, List.length_cons, List.length_nil]
          rcases hbnd with ⟨rfl, _⟩ | ⟨rfl, _⟩ <;> omega
      refine ⟨?_, ?_, ?_⟩
      · rw [hstep, hspec]
        rfl
      · intro hnone
        rw [hspec] at hnone
        cases hnone
      · intro n' k' dd' t' hsome
        rw [hspec] at hsome
        simp only [Option.some.injEq, Prod.mk.injEq] at hsome
        obtain ⟨hn, -, -, ht⟩ := hsome
        subst hn
        subst ht
        rw [hstep]
        show st.output ++ (st.buffer ++ [c]).take ((st.buffer ++ [c]).length - t) =
            (pre ++ c :: cs).take ((pre ++ [c]).length - t)
        have hre : pre ++ c :: cs = (pre ++ [c]) ++ cs := by simp
        have hle : (pre ++ [c]).length - t ≤ (pre ++ [c]).length := by omega
        rw [hre, List.take_append_of_le_length hle]
        have hob : st.output ++ (st.buffer ++ [c]) = pre ++ [c] := by
          rw [← List.append_assoc, ho]
        have hoblen : st.output.length + (st.buffer.length + 1) = pre.length + 1 := by
          have := congrArg List.length hob
          simpa using this
        have htb' : t ≤ st.buffer.length + 1 := by
          simpa using htb
        have harg : st.output.length + ((st.buffer ++ [c]).length - t) =
            (pre ++ [c]).length - t := by
          simp only [List.length_append, List.length_cons, List.length_nil]
          omega
        calc st.output ++ (st.buffer ++ [c]).take ((st.buffer ++ [c]).length - t)
            = (st.output ++ (st.buffer ++ [c])).take
                (st.output.length + ((st.buffer ++ [c]).length - t)) :=
              (List.take_append _).symm
          _ = (pre ++ [c]).take ((pre ++ [c]).length - t) := by
              rw [hob, harg]
    | none =>
      have hstep : seekAux (c :: cs) st = seekAux cs (seekStep st c) := by
        simp only [seekAux, hmatch, hsb]
      have hspec : specScanFrom pre (c :: cs) = specScanFrom (pre ++ [c]) cs := by
        simp only [specScanFrom, hsb]
      obtain ⟨hc', ho', hbuf', hlen'⟩ := seekStep_inv st c pre hc ho hbuf hlen
      have hrec := ih (pre ++ [c]) (seekStep st c) hc' ho' hbuf' hlen'
      refine ⟨?_, ?_, ?_⟩
      · rw [hstep, hspec]
        exact hrec.1
      · intro hnone
        rw [hspec] at hnone
        rw [hstep, hrec.2.1 hnone]
        simp
      · intro n k dd t hsome
        rw [hspec] at hsome
        rw [hstep, hrec.2.2 n k dd t hsome]
        congr 1
        simp

/-- Auxiliary invariant: starting from a window of at most 99 bytes, the
window at every loop head of the scanner stays at most 99 bytes long. -/
theorem seekStep_buffer_le (pre : List Nat) :
    ∀ st : ScanState, st.buffer.length ≤ 99 →
    (List.foldl seekStep st pre).buffer.length ≤ 99 := by
  induction pre with
  | nil => intro st h; exact h
  | cons c cs ih =>
    intro st h
    rw [List.foldl_cons]
    apply ih
    unfold seekStep
    by_cases hmax : scanBufferMax ≤ (st.buffer ++ [c]).length
    · rw [if_pos hmax, scanBufferMin_eq]
      simp only [List.length_drop, List.length_append, List.length_cons, List.length_nil]
      omega
    · rw [if_neg hmax]
      rw [scanBufferMax_eq] at hmax
      simp only [List.length_append, List.length_cons, List.length_nil] at hmax ⊢
      omega

/-- `validateDescriptor` succeeds only on windows of at least 16 bytes and
byte counters of at least 16. -/
theorem validateDescriptor_some {buffer : List Nat} {count : Nat} {dd : DataDescriptor}
    {t : Nat} (h : validateDescriptor buffer count = some (dd, t)) :
    16 ≤ buffer.length ∧ 16 ≤ count := by
  unfold validateDescriptor at h
  split at h
  · cases h
  · rename_i dd' hcd
    have hlen : 16 ≤ buffer.length := by
      by_contra hc
      unfold checkDataDescriptor at hcd
      rw [trailer16, if_pos (by omega)] at hcd
      cases hcd
    refine ⟨hlen, ?_⟩
    split at h
    · rename_i hI
      rw [trailer16] at hI
      omega
    · split at h
      · rename_i hI
        have hI1 := hI.1
        rw [trailer20] at hI1
        omega
      · cases h

/-! ## Claim theorems for the signature scanner -/

/-- **C1**: for every byte stream scanned as an entry body, `seekToSignature`
terminates exactly at the first occurrence of a 4-byte local-file-header or
central-directory-header signature whose immediately preceding 12 bytes parse
little-endian as a data descriptor whose `CompressedSize` equals the number of
payload bytes written so far (`count - 4 - 12`, or `count - 4 - 12 - 4` when
those 12 bytes are themselves preceded by the `PK\x07\x08` signature), and it
returns that descriptor together with `hasNextEntry = true` (another entry
follows) for a local signature and `false` (the archive ends) for a central
signature; an occurrence failing the validation is skipped and the scan
continues.  Formally: the result of the code scanner equals the spec-side
first-validated-boundary search. -/
theorem seekToSignature_stops_at_first_validated_boundary (input : List Nat) :
    (seekToSignature input).found = (specScan input).map (fun r => (r.2.1, r.2.2.1)) :=
  (seekAux_spec input [] ⟨[], 0, []⟩ rfl rfl (Or.inl rfl) (by simp)).1

/-- **C2**: whenever `seekToSignature` returns at a boundary, the sink has
received exactly the scanned bytes that are not part of the discovered trailer
(the 12-byte descriptor, its optional 4-byte `PK\x07\x08` signature, and the
terminating 4-byte header signature); in particular for the input
`HOGEHOGE ++ PK\x07\x08 ++ descriptor(CompressedSize = 8) ++ PK\x03\x04` the
sink receives exactly `HOGEHOGE` and the call reports a local header with a
descriptor whose `CompressedSize` is 8. -/
theorem seekToSignature_sink_excludes_trailer :
    (∀ (input : List Nat) (n : Nat) (k : Bool) (dd : DataDescriptor) (t : Nat),
      specScan input = some (n, k, dd, t) →
      (seekToSignature input).output = input.take (n - t)) ∧
    seekToSignature
        ([72, 79, 71, 69, 72, 79, 71, 69] ++ [80, 75, 7, 8] ++
          [0, 0, 0, 0, 8, 0, 0, 0, 0, 0, 0, 0] ++ [80, 75, 3, 4]) =
      ⟨some (true, ⟨0, 8, 0⟩), [72, 79, 71, 69, 72, 79, 71, 69], []⟩ := by
  constructor
  · intro input n k dd t h
    have hmain := (seekAux_spec input [] ⟨[], 0, []⟩ rfl rfl (Or.inl rfl) (by simp)).2.2
      n k dd t h
    simpa [seekToSignature] using hmain
  · decide

/-- Witness for C2: the general sink property applied at the concrete
`HOGEHOGE` stream with trailer length 20 at boundary 28. -/
theorem seekToSignature_sink_excludes_trailer_witness :
    (seekToSignature
        ([72, 79, 71, 69, 72, 79, 71, 69] ++ [80, 75, 7, 8] ++
          [0, 0, 0, 0, 8, 0, 0, 0, 0, 0, 0, 0] ++ [80, 75, 3, 4])).output =
      ([72, 79, 71, 69, 72, 79, 71, 69] ++ [80, 75, 7, 8] ++
        [0, 0, 0, 0, 8, 0, 0, 0, 0, 0, 0, 0] ++ [80, 75, 3, 4]).take (28 - 20) :=
  seekToSignature_sink_excludes_trailer.1
    ([72, 79, 71, 69, 72, 79, 71, 69] ++ [80, 75, 7, 8] ++
      [0, 0, 0, 0, 8, 0, 0, 0, 0, 0, 0, 0] ++ [80, 75, 3, 4])
    28 true ⟨0, 8, 0⟩ 20 (by decide)

set_option maxRecDepth 40000 in
/-- **C9, counterexample**: when the scanner window fills to its capacity of
100 bytes, the retained tail has length `sigSize + dataDescriptorSize +
sigSize = 20`, not 24 as the claim states: after 99 scanned bytes the next
continue-step flushes all but the last 20 bytes. -/
theorem seekStep_flush_retains_twenty_counterexample :
    (seekStep (List.foldl seekStep ⟨[], 0, []⟩ (List.replicate 99 0)) 0).buffer.length = 20 ∧
    ¬ (seekStep (List.foldl seekStep ⟨[], 0, []⟩ (List.replicate 99 0)) 0).buffer.length = 24 := by
  decide

/-- The flush equation of a continue-step at the capacity, for any state. -/
theorem seekStep_flush (st : ScanState) (c : Nat)
    (h100 : (st.buffer ++ [c]).length = 100) :
    seekStep st c = ⟨(st.buffer ++ [c]).drop 80, st.count + 1,
      st.output ++ (st.buffer ++ [c]).take 80⟩ := by
  unfold seekStep
  rw [if_pos (by rw [scanBufferMax_eq, h100]), h100, scanBufferMin_eq]

/-- **C9, amended**: throughout every execution of `seekToSignature` the
sliding window never holds more than 100 bytes, and each time it reaches that
capacity exactly the last 20 bytes (signature + descriptor + signature =
4 + 12 + 4) are retained in the window while all older bytes are flushed to
the sink, so the retained-but-unflushed bytes are bounded by a constant
independent of entry size.  The states reached by the scanner loop are the
`List.foldl seekStep` iterates of the initial state. -/
theorem seekStep_window_bound_and_flush (pre : List Nat) (c : Nat) (st : ScanState)
    (hreach : st = List.foldl seekStep ⟨[], 0, []⟩ pre) :
    st.buffer.length ≤ 99 ∧ (st.buffer ++ [c]).length ≤ 100 ∧
    ((st.buffer ++ [c]).length = 100 →
      seekStep st c = ⟨(st.buffer ++ [c]).drop 80, st.count + 1,
        st.output ++ (st.buffer ++ [c]).take 80⟩ ∧
      ((st.buffer ++ [c]).drop 80).length = 20) := by
  have hb : st.buffer.length ≤ 99 := by
    rw [hreach]
    exact seekStep_buffer_le pre ⟨[], 0, []⟩ (by simp)
  refine ⟨hb, ?_, ?_⟩
  · simp only [List.length_append, List.length_cons, List.length_nil]
    omega
  · intro h100
    exact ⟨seekStep_flush st c h100, by rw [List.length_drop, h100]⟩

set_option maxRecDepth 40000 in
/-- Witness for C9: at the concrete state reached after 99 scanned zero
bytes, appending one more byte makes the window hit the capacity and the
flush equation fires. -/
theorem seekStep_window_bound_and_flush_witness :
    seekStep (List.foldl seekStep ⟨[], 0, []⟩ (List.replicate 99 0)) 0 =
      ⟨((List.foldl seekStep ⟨[], 0, []⟩ (List.replicate 99 0)).buffer ++ [0]).drop 80,
       (List.foldl seekStep ⟨[], 0, []⟩ (List.replicate 99 0)).count + 1,
       (List.foldl seekStep ⟨[], 0, []⟩ (List.replicate 99 0)).output ++
         ((List.foldl seekStep ⟨[], 0, []⟩ (List.replicate 99 0)).buffer ++ [0]).take 80⟩ ∧
    (((List.foldl seekStep ⟨[], 0, []⟩ (List.replicate 99 0)).buffer ++ [0]).drop 80).length
      = 20 :=
  (seekStep_window_bound_and_flush (List.replicate 99 0) 0
    (List.foldl seekStep ⟨[], 0, []⟩ (List.replicate 99 0)) rfl).2.2 (by decide)

/-- **C10**: `checkDataDescriptor` returns `none` whenever the window holds
fewer than 16 bytes (the Go `start` index would be negative), and the scanner
match can only succeed on a window of at least 16 bytes with a byte counter of
at least 16, so no validated boundary can be reported before 16 bytes of the
body have been scanned. -/
theorem checkDataDescriptor_guard :
    (∀ buffer : List Nat, buffer.length < 16 → checkDataDescriptor buffer = none) ∧
    (∀ (buffer : List Nat) (count : Nat) (k : Bool) (dd : DataDescriptor) (t : Nat),
      matchSignature buffer count = some (k, dd, t) → 16 ≤ buffer.length ∧ 16 ≤ count) := by
  constructor
  · intro buffer h
    unfold checkDataDescriptor
    rw [trailer16, if_pos h]
  · intro buffer count k dd t h
    unfold matchSignature at h
    split at h
    · cases hv : validateDescriptor buffer count with
      | none => rw [hv] at h; cases h
      | some p =>
        obtain ⟨dd', t'⟩ := p
        exact validateDescriptor_some hv
    · split at h
      · cases hv : validateDescriptor buffer count with
        | none => rw [hv] at h; cases h
        | some p =>
          obtain ⟨dd', t'⟩ := p
          exact validateDescriptor_some hv
      · cases h

/-- Witness for C10: a 3-byte window yields no descriptor, and a concrete
16-byte window with a matching zero descriptor satisfies the bounds. -/
theorem checkDataDescriptor_guard_witness :
    checkDataDescriptor [0, 0, 0] = none ∧
    (16 ≤ ([0, 0, 0, 0, 0, 0, 0, 0, 0, 0, 0, 0, 80, 75, 3, 4] : List Nat).length ∧ 16 ≤ 16) :=
  ⟨checkDataDescriptor_guard.1 [0, 0, 0] (by decide),
   checkDataDescriptor_guard.2 [0, 0, 0, 0, 0, 0, 0, 0, 0, 0, 0, 0, 80, 75, 3, 4] 16
     true ⟨0, 0, 0⟩ 16 (by decide)⟩

/-! ## Claim C4: filename slash stripping -/

/-- Helper: the head of a dropWhile remainder does not satisfy the
predicate. -/
theorem dropWhile_head_not (p : Nat → Bool) (l : List Nat) (x : Nat)
    (h : (l.dropWhile p).head? = some x) : p x = false := by
  have h2 := List.head?_dropWhile_not p l
  rw [h] at h2
  exact h2

/-- C4 counterexample: a decoded filename of two leading slashes loses both
of them, not exactly one; `strings.TrimLeft(fname, "/")` strips every
leading slash, so the raw UTF-8 name "//a" becomes "a" where the claim
predicts "/a". -/
theorem readFilenameField_two_slashes_counterexample :
    readFilenameField [47, 47, 97] 3 true (fun bs => Except.ok bs) =
      .ok ([97], []) ∧ ([97] : List Nat) ≠ [47, 97] :=
  ⟨rfl, by decide⟩

/-- C4 (amended): on success the name reported by readFilenameField is the
decoded bytes (verbatim under the UTF-8 bit, through the injected decoder
otherwise) with ALL leading slash characters stripped — some possibly
empty run of slashes precedes the reported name in the decoded string and
the reported name does not begin with a slash — and exactly `n` bytes of
the stream are consumed. -/
theorem readFilenameField_strips_all_leading_slashes
    (stream : List Nat) (n : Nat) (utf8 : Bool)
    (decoder : List Nat → Except ZipErr (List Nat)) (name rest : List Nat)
    (h : readFilenameField stream n utf8 decoder = .ok (name, rest)) :
    ∃ slashes decoded,
      (if utf8 then Except.ok (stream.take n) else decoder (stream.take n)) =
        .ok decoded ∧
      decoded = slashes ++ name ∧ (∀ b ∈ slashes, b = 47) ∧
      name.head? ≠ some 47 ∧ rest = stream.drop n := by
  unfold readFilenameField at h
  split at h
  · split at h <;> exact Except.noConfusion h
  · cases hd : (if utf8 then Except.ok (stream.take n) else
        decoder (stream.take n)) with
    | error e =>
      rw [hd] at h
      dsimp only at h
      exact Except.noConfusion h
    | ok decoded =>
      rw [hd] at h
      dsimp only at h
      simp only [Except.ok.injEq, Prod.mk.injEq] at h
      obtain ⟨hname, hrest⟩ := h
      refine ⟨List.takeWhile (fun b => b == 47) decoded, decoded, rfl, ?_, ?_,
        ?_, hrest.symm⟩
      · rw [← hname]
        exact (List.takeWhile_append_dropWhile _ _).symm
      · intro b hb
        have hbp := List.mem_takeWhile_imp hb
        simpa using hbp
      · intro hc
        have h2 := dropWhile_head_not (fun b => b == 47) decoded 47
          (by rw [hname]; exact hc)
        exact absurd h2 (by decide)

/-- Witness for the C4 theorem at the counterexample input. -/
theorem readFilenameField_strips_all_leading_slashes_witness :
    ∃ slashes decoded,
      ((if true then Except.ok (([47, 47, 97] : List Nat).take 3)
        else Except.ok (([47, 47, 97] : List Nat).take 3)) :
          Except ZipErr (List Nat)) = .ok decoded ∧
      decoded = slashes ++ [97] ∧ (∀ b ∈ slashes, b = 47) ∧
      ([97] : List Nat).head? ≠ some 47 ∧
      ([] : List Nat) = [47, 47, 97].drop 3 :=
  readFilenameField_strips_all_leading_slashes [47, 47, 97] 3 true
    (fun bs => Except.ok bs) [97] [] rfl

/-! ## Claim C8: the cipher equations -/

/-- Masking with 255 is reduction mod 256. -/
theorem and255_eq_mod (x : Nat) : x &&& 255 = x % 256 := by
  apply Nat.eq_of_testBit_eq
  intro i
  rw [Nat.testBit_and, show (255 : Nat) = 2 ^ 8 - 1 by norm_num,
    Nat.testBit_two_pow_sub_one, show (256 : Nat) = 2 ^ 8 by norm_num,
    Nat.testBit_mod_two_pow]
  exact Bool.and_comm _ _

/-- Masking one XOR operand with 255 is invisible under an outer 255
mask. -/
theorem xor_and255 (a b : Nat) :
    (a ^^^ (b &&& 255)) &&& 255 = (a ^^^ b) &&& 255 := by
  apply Nat.eq_of_testBit_eq
  intro i
  simp only [Nat.testBit_and, Nat.testBit_xor,
    show (255 : Nat) = 2 ^ 8 - 1 by norm_num, Nat.testBit_two_pow_sub_one]
  by_cases h : i < 8 <;> simp [h]

/-- The source helper `_crc32` computes the spec's `crc32_step`. -/
theorem _crc32_eq_crc32_step (a b : Nat) : _crc32 a b = crc32_step a b := by
  unfold _crc32 crc32_step
  rw [xor_and255]

/-- The two-assignment `key[1]` update of the source equals the spec's
single mod-2^32 formula. -/
theorem updateKeys_eq_spec (k : Keys) (b : Nat) :
    updateKeys k b = specUpdateKeys k b := by
  unfold updateKeys specUpdateKeys
  dsimp only
  rw [_crc32_eq_crc32_step k.k0 b]
  have hmod : ((k.k1 + (crc32_step k.k0 b &&& 255)) % 2 ^ 32 * 134775813 + 1)
        % 2 ^ 32
      = ((k.k1 + (crc32_step k.k0 b &&& 255)) * 134775813 + 1) % 2 ^ 32 :=
    Nat.ModEq.add_right 1 (Nat.ModEq.mul_right 134775813 (Nat.mod_modEq _ _))
  rw [hmod, _crc32_eq_crc32_step k.k2]

/-- The uint32 product wrap of the source keystream byte is invisible in
bits 8 to 15, so it equals the spec's unwrapped formula. -/
theorem decryptByte_eq_spec (k : Keys) : decryptByte k = specStreamByte k := by
  unfold decryptByte specStreamByte
  rw [and255_eq_mod, Nat.shiftRight_eq_div_pow, Nat.shiftRight_eq_div_pow,
    show (2 : Nat) ^ 32 = 2 ^ 8 * 2 ^ 24 by norm_num,
    Nat.mod_mul_right_div_self]
  exact Nat.mod_mod_of_dvd _ (by norm_num)

/-- C8: the key registers start at exactly 0x12345678, 0x23456789,
0x34567890, and the decrypter's updateKeys, keystream byte and per-byte
decryption compute exactly the spec's formulas (crc32_step feedback on
key0 and key2, the multiply-accumulate mod 2^32 on key1, the
`((t * (t XOR 1)) >> 8) & 0xFF` keystream with `t = key[2] | 2`, and
plaintext = ciphertext XOR keystream fed back into the keys). -/
theorem decrypter_matches_pkware_spec :
    Keys.reset = ⟨0x12345678, 0x23456789, 0x34567890⟩ ∧
    (∀ k b, updateKeys k b = specUpdateKeys k b) ∧
    (∀ k, decryptByte k = specStreamByte k) ∧
    (∀ k c, decrypt k c =
      (c ^^^ specStreamByte k, specUpdateKeys k (c ^^^ specStreamByte k))) := by
  refine ⟨rfl, updateKeys_eq_spec, decryptByte_eq_spec, ?_⟩
  intro k c
  unfold decrypt
  rw [decryptByte_eq_spec, updateKeys_eq_spec]

/-! ## Claim C5: the three password attempts -/

/-- Helper: one unfolding of the attempt loop below the attempt bound. -/
theorem headerCheckLoop_step (check : Nat) (src : List Nat)
    (ph ph1 : PasswordHolder) (pwd : List Nat) (i : Nat) (hi : i < 3)
    (hask : ph.ask (decide (0 < i)) = (pwd, ph1))
    (plain : List Nat) (k1 : Keys)
    (hdec : decryptList (ingestPassword Keys.reset pwd) (src.take 12)
      = (plain, k1)) :
    headerCheckLoop check src ph i =
      if plain.getLast? = some ((check >>> 8) % 256) then .ok (k1, ph1)
      else headerCheckLoop check src ph1 (i + 1) := by
  rw [headerCheckLoop, dif_neg (by omega), hask]
  dsimp only
  rw [hdec]

/-- Helper: the fourth visit to the loop is the password error. -/
theorem headerCheckLoop_exhausted (check : Nat) (src : List Nat)
    (ph : PasswordHolder) :
    headerCheckLoop check src ph 3 = .error .passwordError := by
  rw [headerCheckLoop, dif_pos (by omega)]

/-- C5: on the first Transform call with at least 12 source bytes, the 12
header bytes are decrypted with the password of each attempt ingested into
freshly reset keys; the attempt whose last plaintext byte equals
`byte(check >> 8)` wins — the holder has then been asked once per attempt
and caches the winning password, the 12 header bytes are consumed, and the
rest of the source is decrypted with the surviving keys — and if the first
three attempts all fail the result is the password error. -/
theorem transform_three_password_attempts (check : Nat) (g : Nat → List Nat)
    (src : List Nat) (h12 : 12 ≤ src.length) :
    ((∀ i, i < 3 → attemptPasses g check src i = false) →
      Decrypter.Transform (newDecrypter check ⟨g, 0, none⟩) src =
        .error .passwordError) ∧
    (∀ i, i < 3 → attemptPasses g check src i = true →
      (∀ j, j < i → attemptPasses g check src j = false) →
      Decrypter.Transform (newDecrypter check ⟨g, 0, none⟩) src =
        .ok ((decryptList (attemptKeys g src i).2 (src.drop 12)).1,
          ⟨check, (decryptList (attemptKeys g src i).2 (src.drop 12)).2, false,
            ⟨g, i + 1, some (g i)⟩⟩)) := by
  have hask0 : (⟨g, 0, none⟩ : PasswordHolder).ask (decide (0 < 0)) =
      (g 0, ⟨g, 1, some (g 0)⟩) := rfl
  have hask1 : (⟨g, 1, some (g 0)⟩ : PasswordHolder).ask (decide (0 < 1)) =
      (g 1, ⟨g, 2, some (g 1)⟩) := rfl
  have hask2 : (⟨g, 2, some (g 1)⟩ : PasswordHolder).ask (decide (0 < 2)) =
      (g 2, ⟨g, 3, some (g 2)⟩) := rfl
  have hstep0 := headerCheckLoop_step check src ⟨g, 0, none⟩
    ⟨g, 1, some (g 0)⟩ (g 0) 0 (by omega) hask0
    (attemptKeys g src 0).1 (attemptKeys g src 0).2 rfl
  have hstep1 := headerCheckLoop_step check src ⟨g, 1, some (g 0)⟩
    ⟨g, 2, some (g 1)⟩ (g 1) 1 (by omega) hask1
    (attemptKeys g src 1).1 (attemptKeys g src 1).2 rfl
  have hstep2 := headerCheckLoop_step check src ⟨g, 2, some (g 1)⟩
    ⟨g, 3, some (g 2)⟩ (g 2) 2 (by omega) hask2
    (attemptKeys g src 2).1 (attemptKeys g src 2).2 rfl
  have hpassP : ∀ j, attemptPasses g check src j = true →
      (attemptKeys g src j).1.getLast? = some ((check >>> 8) % 256) := by
    intro j hj
    simp only [attemptPasses, beq_iff_eq] at hj
    exact hj
  have hfailP : ∀ j, attemptPasses g check src j = false →
      ¬ (attemptKeys g src j).1.getLast? = some ((check >>> 8) % 256) := by
    intro j hj
    simp only [attemptPasses, beq_eq_false_iff_ne] at hj
    exact hj
  constructor
  · intro hall
    have hf0 := hfailP 0 (hall 0 (by omega))
    have hf1 := hfailP 1 (hall 1 (by omega))
    have hf2 := hfailP 2 (hall 2 (by omega))
    unfold Decrypter.Transform newDecrypter
    dsimp only
    rw [if_pos rfl, if_neg (by omega), hstep0, if_neg hf0, hstep1, if_neg hf1,
      hstep2, if_neg hf2, headerCheckLoop_exhausted]
  · intro i hi hp hfail
    have hp' := hpassP i hp
    have hi3 : i = 0 ∨ i = 1 ∨ i = 2 := by omega
    rcases hi3 with rfl | rfl | rfl
    · unfold Decrypter.Transform newDecrypter
      dsimp only
      rw [if_pos rfl, if_neg (by omega), hstep0, if_pos hp']
    · have hf0 := hfailP 0 (hfail 0 (by omega))
      unfold Decrypter.Transform newDecrypter
      dsimp only
      rw [if_pos rfl, if_neg (by omega), hstep0, if_neg hf0, hstep1,
        if_pos hp']
    · have hf0 := hfailP 0 (hfail 0 (by omega))
      have hf1 := hfailP 1 (hfail 1 (by omega))
      unfold Decrypter.Transform newDecrypter
      dsimp only
      rw [if_pos rfl, if_neg (by omega), hstep0, if_neg hf0, hstep1,
        if_neg hf1, hstep2, if_pos hp']

set_option maxRecDepth 40000 in
/-- Witness for C5: with an empty password and twelve zero ciphertext
bytes the last header plaintext byte is 252, so a check value of
64512 = 252 * 256 passes on the first attempt. -/
theorem transform_three_password_attempts_witness :
    Decrypter.Transform (newDecrypter 64512 ⟨fun _ => [], 0, none⟩)
        (List.replicate 12 0) =
      .ok ((decryptList (attemptKeys (fun _ => []) (List.replicate 12 0) 0).2
            ((List.replicate 12 0).drop 12)).1,
        ⟨64512,
          (decryptList (attemptKeys (fun _ => []) (List.replicate 12 0) 0).2
            ((List.replicate 12 0).drop 12)).2, false,
          ⟨fun _ => [], 1, some []⟩⟩) :=
  (transform_three_password_attempts 64512 (fun _ => [])
      (List.replicate 12 0) (by decide)).2 0 (by decide) (by decide)
    (fun j hj => absurd hj (Nat.not_lt_zero j))

/-! ## Claim C6: Scan and Err at the end of the archive -/

/-- C6 counterexample: a stream holding exactly the local-file-header
signature and nothing else — the header read then fails with io.EOF —
makes Scan return false with a nil Err, although the signature read was
PK 3 4 (not the central-directory signature) and no previous descriptor
scan had reported the end. -/
theorem scanAndErr_truncated_counterexample :
    scanAndErr (fun bs => Except.ok bs)
        ⟨[80, 75, 3, 4], 0, false, true, none, false⟩ = (false, none) ∧
    ([80, 75, 3, 4] : List Nat).take 4 = sigLocalFileHeader ∧
    (⟨[80, 75, 3, 4], 0, false, true, none, false⟩ : CZ).hasNextEntry
      = true ∧
    (⟨[80, 75, 3, 4], 0, false, true, none, false⟩ : CZ).bgErr = none :=
  ⟨rfl, rfl, rfl, rfl⟩

/-- C6 (amended): when no background error is pending, Scan returns false
with a nil Err if a previous descriptor scan reported no next entry, and
likewise if the 4 bytes read where a local file header was expected are
the central-directory signature; if those 4 bytes are neither the
local-file-header nor the central-directory signature, Scan returns false
and Err is the signature-not-found error. (The converse of the claim is
false: a truncated stream also produces false with a nil Err, see the
counterexample.) -/
theorem scanAndErr_end_conditions (dec : List Nat → Except ZipErr (List Nat))
    (cz : CZ) (hbg : cz.bgErr = none) :
    (cz.hasNextEntry = false → scanAndErr dec cz = (false, none)) ∧
    (cz.hasNextEntry = true → cz.nextSignatureAlreadyRead = false →
      4 ≤ (cz.stream.drop cz.pendingDiscard).length →
      (cz.stream.drop cz.pendingDiscard).take 4 = sigCentralDirectoryHeader →
      scanAndErr dec cz = (false, none)) ∧
    (cz.hasNextEntry = true → cz.nextSignatureAlreadyRead = false →
      4 ≤ (cz.stream.drop cz.pendingDiscard).length →
      (cz.stream.drop cz.pendingDiscard).take 4 ≠ sigCentralDirectoryHeader →
      (cz.stream.drop cz.pendingDiscard).take 4 ≠ sigLocalFileHeader →
      scanAndErr dec cz = (false, some .signatureNotFound)) := by
  refine ⟨?_, ?_, ?_⟩
  · intro h1
    have hscan : scan dec cz = .error ZipErr.eof := by
      unfold scan
      rw [hbg]
      dsimp only
      rw [h1, if_neg Bool.false_ne_true]
    unfold scanAndErr
    rw [hscan]
    dsimp only
    rw [if_pos rfl, hbg]
  · intro h1 h2 hlen h3
    have hsig : scanSig (cz.stream.drop cz.pendingDiscard) false =
        .error ZipErr.eof := by
      unfold scanSig
      rw [if_neg Bool.false_ne_true, if_neg (by omega), if_neg (by omega),
        if_pos h3]
    have hscan : scan dec cz = .error ZipErr.eof := by
      unfold scan
      rw [hbg]
      dsimp only
      rw [h1, if_pos rfl, h2, hsig]
    unfold scanAndErr
    rw [hscan]
    dsimp only
    rw [if_pos rfl, hbg]
  · intro h1 h2 hlen h3 h4
    have hsig : scanSig (cz.stream.drop cz.pendingDiscard) false =
        .error ZipErr.signatureNotFound := by
      unfold scanSig
      rw [if_neg Bool.false_ne_true, if_neg (by omega), if_neg (by omega),
        if_neg h3, if_neg h4]
    have hscan : scan dec cz = .error ZipErr.signatureNotFound := by
      unfold scan
      rw [hbg]
      dsimp only
      rw [h1, if_pos rfl, h2, hsig]
    unfold scanAndErr
    rw [hscan]
    dsimp only
    rw [if_neg (by decide)]

/-- Witness for C6 on the three end shapes: a spent archive, a
central-directory signature, and an unknown signature. -/
theorem scanAndErr_end_conditions_witness :
    scanAndErr (fun bs => Except.ok bs) ⟨[], 0, false, false, none, false⟩ =
      (false, none) ∧
    scanAndErr (fun bs => Except.ok bs)
        ⟨[80, 75, 1, 2], 0, false, true, none, false⟩ = (false, none) ∧
    scanAndErr (fun bs => Except.ok bs)
        ⟨[9, 9, 9, 9], 0, false, true, none, false⟩ =
      (false, some ZipErr.signatureNotFound) :=
  ⟨(scanAndErr_end_conditions _ _ rfl).1 rfl,
   (scanAndErr_end_conditions _ _ rfl).2.1 rfl rfl (by decide) rfl,
   (scanAndErr_end_conditions _ _ rfl).2.2 rfl rfl (by decide) (by decide)
     (by decide)⟩

end Uncozip
